import Mathlib

/-!
Verification of the SquareGolf launch-monitor data pipeline (src/app.py).

The development shallowly embeds the data-handling parts of the program:
 - column-name normalization and CSV loading (`load_and_clean_csv`, lines 11-39),
 - the session merge loop (lines 48-57),
 - the directional value parser (`convert_lr_to_float`, lines 87-97),
 - the outlier-filtering block (lines 241-255), and
 - the club recommendation block (lines 119-129).

CSV files are modelled as lists of pre-tokenized records (`List (List String)`);
pandas missing values (NaN cells) are `Option.none`; numeric series are `Rat`
with a separate `none`/constructor for NaN.  The theorems at the end of the file
settle the claims C1-C10.
-/

/-! ### Character-list utilities (Python `str.strip` / `str.replace`) -/

/-- Python `str.strip()`: drop whitespace from both ends. -/
def trimChars (s : List Char) : List Char :=
  ((s.dropWhile Char.isWhitespace).reverse.dropWhile Char.isWhitespace).reverse

/-- Fuel-driven worker for `stripPat`; the fuel is the input length, which
bounds the number of steps since every step consumes at least one character. -/
def stripPatFuel (pat : List Char) : Nat → List Char → List Char
  | 0, s => s
  | _ + 1, [] => []
  | n + 1, c :: cs =>
    if pat ≠ [] ∧ pat.isPrefixOf (c :: cs) then
      stripPatFuel pat n (List.drop (pat.length - 1) cs)
    else
      c :: stripPatFuel pat n cs

/-- Python `s.replace(pat, "")` for a non-empty literal `pat`: delete every
(left-to-right, non-overlapping) occurrence of `pat`. -/
def stripPat (pat s : List Char) : List Char := stripPatFuel pat s.length s

/-- Embeds line 18 of src/app.py:
`df.columns.str.strip().str.replace('(yd)','').str.replace('(mph)','').str.replace(' ','')`
(trim, then delete every `"(yd)"`, every `"(mph)"`, and every space). -/
def normCol (s : String) : String :=
  String.mk (stripPat " ".data (stripPat "(mph)".data (stripPat "(yd)".data (trimChars s.data))))

/-! ### Python scalar values

A cell value manipulated by `convert_lr_to_float` is a string, a float, or a
missing value.  Python floats are split into finite values (`Rat`), signed
infinities and NaN. -/

/-- Result of a successful Python `float(...)` call. -/
inductive PyNum where
  | fin (q : Rat)
  | inf (neg : Bool)
  | nan
deriving DecidableEq, Repr

/-- A scalar cell value in an object-dtype pandas column. -/
inductive Value where
  | str (s : String)
  | num (q : Rat)
  | inf (neg : Bool)
  | nan
deriving DecidableEq, Repr

def PyNum.toValue : PyNum → Value
  | .fin q => .num q
  | .inf b => .inf b
  | .nan => .nan

/-- Numeric value of a digit string (most significant first). -/
def digitsToNat (ds : List Char) : Nat :=
  ds.foldl (fun n c => 10 * n + (c.toNat - 48)) 0

/-- Value of a fractional digit string `fs` read after a decimal point. -/
def fracVal (fs : List Char) : Rat :=
  (digitsToNat fs : Rat) / ((10 : Rat) ^ fs.length)

def ratPow10 : Int → Rat
  | .ofNat n => (10 : Rat) ^ n
  | .negSucc n => 1 / (10 : Rat) ^ (n + 1)

def applySign (neg : Bool) (q : Rat) : Rat := if neg then -q else q

/-- Parse an optionally signed, non-empty run of digits (the exponent of a
Python float literal). -/
def parseSignedDigits (s : List Char) : Option Int :=
  match s with
  | '+' :: r => if r ≠ [] ∧ r.all Char.isDigit then some (digitsToNat r : Int) else none
  | '-' :: r => if r ≠ [] ∧ r.all Char.isDigit then some (-(digitsToNat r : Int)) else none
  | r => if r ≠ [] ∧ r.all Char.isDigit then some (digitsToNat r : Int) else none

/-- Parse the remainder after the mantissa of a float literal: either nothing
(exponent 0) or `e`/`E` followed by a signed digit run. -/
def parseExp (s : List Char) : Option Int :=
  match s with
  | [] => some 0
  | c :: r => if c = 'e' ∨ c = 'E' then parseSignedDigits r else none

/-- Python `float(str)` on an already stripped string: optional sign, then
`inf`/`infinity`/`nan` (case-insensitive) or a decimal literal
`digits [. digits] [(e|E) signed-digits]` with at least one mantissa digit.
(Digit-group underscores and non-ASCII decimal digits, which CPython also
accepts, are outside the model.) -/
def pyFloat (s : List Char) : Option PyNum :=
  let sgn : Bool × List Char :=
    match s with
    | [] => (false, [])
    | c :: r => if c = '-' then (true, r) else if c = '+' then (false, r) else (false, c :: r)
  let neg := sgn.1
  let t := sgn.2
  let low := t.map Char.toLower
  if low = "inf".data ∨ low = "infinity".data then some (.inf neg)
  else if low = "nan".data then some .nan
  else
    let ds := t.takeWhile Char.isDigit
    let r1 := t.dropWhile Char.isDigit
    match r1 with
    | '.' :: r2 =>
      let fs := r2.takeWhile Char.isDigit
      let r3 := r2.dropWhile Char.isDigit
      if ds = [] ∧ fs = [] then none
      else (parseExp r3).map fun e =>
        .fin (applySign neg (((digitsToNat ds : Rat) + fracVal fs) * ratPow10 e))
    | _ =>
      if ds = [] then none
      else (parseExp r1).map fun e =>
        .fin (applySign neg ((digitsToNat ds : Rat) * ratPow10 e))

/-- The regex match of line 90 of src/app.py, `^([LR])(\d+(\.\d+)?)$`, applied
to a stripped string, returning the signed magnitude (`L` negative). -/
def matchLR (s : List Char) : Option Rat :=
  match s with
  | [] => none
  | c :: rest =>
    if c = 'L' ∨ c = 'R' then
      let ds := rest.takeWhile Char.isDigit
      let r1 := rest.dropWhile Char.isDigit
      if ds = [] then none
      else
        match r1 with
        | [] => some (if c = 'L' then -(digitsToNat ds : Rat) else (digitsToNat ds : Rat))
        | '.' :: fs =>
          if fs ≠ [] ∧ fs.all Char.isDigit then
            some (if c = 'L' then -((digitsToNat ds : Rat) + fracVal fs)
                  else (digitsToNat ds : Rat) + fracVal fs)
          else none
        | _ => none
    else none

/-- Embeds `convert_lr_to_float` (src/app.py lines 87-97): strings are
stripped, matched against the `L`/`R` pattern, otherwise passed to `float`,
and returned (stripped) unchanged when neither applies; non-strings pass
through. -/
def convert_lr_to_float : Value → Value
  | .str s =>
    let t := trimChars s.data
    match matchLR t with
    | some q => .num q
    | none =>
      match pyFloat t with
      | some w => w.toValue
      | none => .str (String.mk t)
  | v => v

/-! ### The shot table at the outlier-filter stage

At line 240 of src/app.py, `filtered_df` has had its `Carry`, `Total
Distance` and `Ball Speed` columns coerced with `pd.to_numeric(errors=
"coerce")` (lines 110-113), so each value there is a number or NaN
(`Option Rat`, `none` = NaN).  `Offline` is NOT in `numeric_cols`, so it is
still an object column whose values may be strings, numbers, infinities or
NaN (`Value`).  A missing column is modelled by the corresponding `has*`
flag being false. -/

structure Shot where
  club : String
  carry : Option Rat
  total : Option Rat
  ballSpeed : Option Rat
  offline : Value
deriving DecidableEq, Repr

structure ShotTable where
  hasCarry : Bool
  hasTotal : Bool
  hasBallSpeed : Bool
  hasOffline : Bool
  rows : List Shot
deriving DecidableEq, Repr

/-- Embeds pandas `Series.quantile(q)` (default linear interpolation, NaN
values dropped before the computation, NaN result on an empty series --
returned here as `none`): with the non-NaN values sorted ascending as
`x_0 .. x_(n-1)`, the result is `x_i + frac * (x_(i+1) - x_i)` where
`i = floor(q*(n-1))` and `frac = q*(n-1) - i`. -/
def quantileLinear (xs : List Rat) (q : Rat) : Option Rat :=
  let sorted := xs.insertionSort (· ≤ ·)
  let n := xs.length
  if n = 0 then none
  else
    let pos : Rat := q * ((n : Rat) - 1)
    let i : Nat := (Int.floor pos).toNat
    let frac : Rat := pos - (i : Rat)
    let xi := sorted.getD i 0
    let xi1 := sorted.getD (i + 1) xi
    some (xi + frac * (xi1 - xi))

/-- One iteration of the loop at lines 242-247 of src/app.py for a column
that is present (`b`): compute Q1 and Q3 of the current rows, and keep the
rows whose value satisfies both fence comparisons.  A NaN value fails both
pandas comparisons, and if the column has no non-NaN values then Q1 and Q3
are NaN and every comparison fails (the `| _, _ =>` arm). -/
def iqrPass (b : Bool) (get : Shot → Option Rat) (rows : List Shot) : List Shot :=
  if b then
    let vals := rows.filterMap get
    match quantileLinear vals (1/4), quantileLinear vals (3/4) with
    | some q1, some q3 =>
      let iqr := q3 - q1
      rows.filter fun s =>
        match get s with
        | some v => decide (q1 - 1.5 * iqr ≤ v ∧ v ≤ q3 + 1.5 * iqr)
        | none => false
    | _, _ => rows.filter fun _ => false
  else rows

def boundPass (b : Bool) (keep : Shot → Bool) (rows : List Shot) : List Shot :=
  if b then rows.filter keep else rows

/-- Line 251: `filtered_df["Ball Speed"] >= 40` (NaN compares false). -/
def keepBallSpeed (s : Shot) : Bool :=
  match s.ballSpeed with
  | some v => decide (40 ≤ v)
  | none => false

/-- Line 253: `filtered_df["Carry"] >= 30` (NaN compares false). -/
def keepCarryMin (s : Shot) : Bool :=
  match s.carry with
  | some v => decide (30 ≤ v)
  | none => false

/-- Line 255: `isinstance(x, (int, float)) and abs(x) <= 50`; a string fails
the isinstance test, NaN and infinities pass it but fail the magnitude
bound. -/
def keepOffline (s : Shot) : Bool :=
  match s.offline with
  | .num v => decide (|v| ≤ 50)
  | _ => false

/-- Embeds the enabled branch of the outlier-filter block, lines 241-255 of
src/app.py: IQR pass over Carry then over Total Distance (each on the
currently filtered rows), then the three fixed bounds, each pass applied
only when its column is present. -/
def removeOutliersRows (t : ShotTable) : List Shot :=
  let r1 := iqrPass t.hasCarry (fun s => s.carry) t.rows
  let r2 := iqrPass t.hasTotal (fun s => s.total) r1
  let r3 := boundPass t.hasBallSpeed keepBallSpeed r2
  let r4 := boundPass t.hasCarry keepCarryMin r3
  boundPass t.hasOffline keepOffline r4

/-- The outlier filter with its sidebar toggle (line 42 / line 241): when
disabled the table passes through unchanged. -/
def filterOutliers (enabled : Bool) (t : ShotTable) : ShotTable :=
  if enabled then ⟨t.hasCarry, t.hasTotal, t.hasBallSpeed, t.hasOffline, removeOutliersRows t⟩
  else t

/-! ### Claim C3: the filter block matches its specification -/

instance optExistsDec (o : Option Rat) (P : Rat → Prop) [DecidablePred P] :
    Decidable (∃ v, o = some v ∧ P v) :=
  match o with
  | none => isFalse (by rintro ⟨v, hv, _⟩; cases hv)
  | some x =>
    if h : P x then isTrue ⟨x, rfl, h⟩
    else isFalse (by rintro ⟨v, hv, hp⟩; injection hv with h2; subst h2; exact h hp)

instance valueNumDec (w : Value) (P : Rat → Prop) [DecidablePred P] :
    Decidable (∃ v, w = Value.num v ∧ P v) :=
  match w with
  | .num x =>
    if h : P x then isTrue ⟨x, rfl, h⟩
    else isFalse (by rintro ⟨v, hv, hp⟩; injection hv with h2; subst h2; exact h hp)
  | .str _ => isFalse (by rintro ⟨v, hv, _⟩; cases hv)
  | .inf _ => isFalse (by rintro ⟨v, hv, _⟩; cases hv)
  | .nan => isFalse (by rintro ⟨v, hv, _⟩; cases hv)

/-- Stated from the claim's wording: compute Q1 and Q3 over the current row
set and keep exactly the rows whose value lies in the inclusive interval
[Q1 - 1.5*IQR, Q3 + 1.5*IQR] (a missing value lies in no interval; when the
column has no values Q1 and Q3 are missing and no row is kept). -/
def specTukeyStep (get : Shot → Option Rat) (rows : List Shot) : List Shot :=
  let vals := rows.filterMap get
  match quantileLinear vals (1/4), quantileLinear vals (3/4) with
  | some q1, some q3 =>
    rows.filter fun s =>
      decide (∃ v, get s = some v ∧ v ∈ Set.Icc (q1 - 1.5 * (q3 - q1)) (q3 + 1.5 * (q3 - q1)))
  | _, _ => []

/-- Stated from the claim's wording: the Tukey pass for carry then for total
distance, each over the currently filtered set, then removal of every row
without ball speed at least 40, of every row without carry at least 30, and
of every row whose offline value is not a finite number of magnitude at most
50; each pass runs only when its column is present. -/
def specRemoveOutliers (t : ShotTable) : ShotTable :=
  let r1 := if t.hasCarry then specTukeyStep (fun s => s.carry) t.rows else t.rows
  let r2 := if t.hasTotal then specTukeyStep (fun s => s.total) r1 else r1
  let r3 := if t.hasBallSpeed then r2.filter fun (s : Shot) =>
    decide (∃ v, s.ballSpeed = some v ∧ 40 ≤ v) else r2
  let r4 := if t.hasCarry then r3.filter fun (s : Shot) =>
    decide (∃ v, s.carry = some v ∧ 30 ≤ v) else r3
  let r5 := if t.hasOffline then r4.filter fun (s : Shot) =>
    decide (∃ v, s.offline = Value.num v ∧ |v| ≤ 50) else r4
  ⟨t.hasCarry, t.hasTotal, t.hasBallSpeed, t.hasOffline, r5⟩

def vals8 : List Rat := [30, 30, 30, 30, 30, 33, 39, 57]

def vals7 : List Rat := [30, 30, 30, 30, 30, 33, 39]

def tbl6 : ShotTable :=
  ⟨true, false, false, false,
    [⟨"7 Iron", some 30, none, none, .nan⟩, ⟨"7 Iron", some 30, none, none, .nan⟩,
     ⟨"7 Iron", some 30, none, none, .nan⟩, ⟨"7 Iron", some 30, none, none, .nan⟩,
     ⟨"7 Iron", some 30, none, none, .nan⟩, ⟨"7 Iron", some 33, none, none, .nan⟩,
     ⟨"7 Iron", some 39, none, none, .nan⟩, ⟨"7 Iron", some 57, none, none, .nan⟩]⟩

def tbl6a : ShotTable :=
  ⟨true, false, false, false,
    [⟨"7 Iron", some 30, none, none, .nan⟩, ⟨"7 Iron", some 30, none, none, .nan⟩,
     ⟨"7 Iron", some 30, none, none, .nan⟩, ⟨"7 Iron", some 30, none, none, .nan⟩,
     ⟨"7 Iron", some 30, none, none, .nan⟩, ⟨"7 Iron", some 33, none, none, .nan⟩,
     ⟨"7 Iron", some 39, none, none, .nan⟩]⟩

def tbl6b : ShotTable :=
  ⟨true, false, false, false,
    [⟨"7 Iron", some 30, none, none, .nan⟩, ⟨"7 Iron", some 30, none, none, .nan⟩,
     ⟨"7 Iron", some 30, none, none, .nan⟩, ⟨"7 Iron", some 30, none, none, .nan⟩,
     ⟨"7 Iron", some 30, none, none, .nan⟩, ⟨"7 Iron", some 33, none, none, .nan⟩]⟩

def tbl10 : ShotTable :=
  ⟨true, true, true, true, [⟨"7 Iron", some 100, some 110, some 90, .num 5⟩]⟩

def clubMeanTotal (t : ShotTable) (c : String) : Option Rat :=
  let vs := t.rows.filterMap fun s => if s.club = c then s.total else none
  if vs.isEmpty then none else some (vs.sum / (vs.length : Rat))

def sortedClubs (t : ShotTable) : List String :=
  ((t.rows.map fun s => s.club).dedup).insertionSort (· ≤ ·)

def clubEntries (t : ShotTable) : List (String × Option Rat) :=
  (sortedClubs t).map fun c => (c, clubMeanTotal t c)

def deltaKey (target : Rat) (m : Option Rat) : Option Rat := m.map fun x => |x - target|

/-- Ascending order on the Delta column, NaN (`none`) sorted last. -/
def optLE : Option Rat → Option Rat → Prop
  | some x, some y => x ≤ y
  | some _, none => True
  | none, some _ => False
  | none, none => True

instance optLE_dec : ∀ a b, Decidable (optLE a b)
  | some x, some y => inferInstanceAs (Decidable (x ≤ y))
  | some _, none => isTrue trivial
  | none, some _ => isFalse fun h => h
  | none, none => isTrue trivial

def deltaLE (target : Rat) (a b : String × Option Rat) : Prop :=
  optLE (deltaKey target a.2) (deltaKey target b.2)

instance (target : Rat) : DecidableRel (deltaLE target) :=
  fun a b => inferInstanceAs (Decidable (optLE (deltaKey target a.2) (deltaKey target b.2)))

/-- Embeds the recommendation block's sort and row pick.
`avg_distances.sort_values("Delta")` uses pandas' default `kind='quicksort'`
(numpy introsort), which is documented as NOT stable, so for rows with tied
Delta the program guarantees only that the result is some reordering of
`avg_distances` that is ascending in Delta (NaN last, as `optLE` orders) --
which of the tied orders comes out is unspecified.  `iloc[0]` then reads the
head.  `recommendSpec t target e` holds exactly when `e` is a possible
output of the block. -/
def recommendSpec (t : ShotTable) (target : Rat) (e : String × Option Rat) : Prop :=
  ∃ l', l'.Perm (clubEntries t) ∧ List.Sorted (deltaLE target) l' ∧ l'.head? = some e

def tbl5 : ShotTable :=
  ⟨false, true, false, false,
    [⟨"7 Iron", none, some 145, none, .nan⟩, ⟨"Driver", none, some 160, none, .nan⟩]⟩

/-- Two clubs whose mean total distances 140 and 160 are equidistant from
the target 150. -/
def tbl5tie : ShotTable :=
  ⟨false, true, false, false,
    [⟨"5 Iron", none, some 140, none, .nan⟩, ⟨"Driver", none, some 160, none, .nan⟩]⟩

/-! ### The CSV loading stage (src/app.py lines 11-39 and 48-57)

A raw CSV file is a list of pre-tokenized records (`List (List String)`);
`pd.read_csv(filepath, skiprows=2)` takes row 2 as the header and the rest
as data, turning each cell matching one of pandas' default NA strings into
NaN (`none`); short records are padded with NaN.  A `DataFrame` keeps the
column names and the cell matrix.  `load_and_clean_csv` returns `none` for
an uncaught exception (the `df["Index"]` KeyError when no Index column
exists -- only `pd.read_csv` itself is inside the `try`), and an empty
frame for the two handled error paths. -/

structure DataFrame where
  cols : List String
  rows : List (List (Option String))
deriving DecidableEq, Repr

/-- The default `na_values` of `pd.read_csv`. -/
def naStrings : List String :=
  ["", "#N/A", "#N/A N/A", "#NA", "-1.#IND", "-1.#QNAN", "-NaN", "-nan",
   "1.#IND", "1.#QNAN", "<NA>", "N/A", "NA", "NULL", "NaN", "None", "n/a", "nan", "null"]

def naCell (s : String) : Option String := if s ∈ naStrings then none else some s

/-- Index of the first column with the given name (`df["name"]` lookup). -/
def colIdx (c : String) : List String → Option Nat
  | [] => none
  | x :: xs => if x = c then some 0 else (colIdx c xs).map (· + 1)

def getColVals (d : DataFrame) (c : String) : List (Option String) :=
  match colIdx c d.cols with
  | some i => d.rows.map fun r => r.getD i none
  | none => []

def padTo (r : List (Option String)) (n : Nat) : List (Option String) :=
  r.take n ++ List.replicate (n - r.length) none

/-- `df[c] = vals`: overwrite the column when present, else append it. -/
def setCol (d : DataFrame) (c : String) (vals : List (Option String)) : DataFrame :=
  match colIdx c d.cols with
  | some i => ⟨d.cols, (d.rows.zip vals).map fun rv => rv.1.set i rv.2⟩
  | none => ⟨d.cols ++ [c], (d.rows.zip vals).map fun rv => padTo rv.1 d.cols.length ++ [rv.2]⟩

def isSubstrB (pat s : List Char) : Bool := s.tails.any fun t => pat.isPrefixOf t

/-- Line 24's regex search `.str.contains("Average|Deviation")`. -/
def hasToken (s : String) : Bool :=
  isSubstrB "Average".data s.data || isSubstrB "Deviation".data s.data

/-- `astype(str)` on one cell: NaN prints as "nan". -/
def astypeStr : Option String → String
  | none => "nan"
  | some s => s

/-- The `rename_map` dict of lines 27-34, in insertion order. -/
def renamePairs : List (String × String) :=
  [("Carry", "Carry"), ("Offline", "Offline"), ("Total", "Total Distance"),
   ("BallSpeed", "Ball Speed"), ("LaunchAngle", "Launch Angle"), ("SpinRate", "Spin Rate")]

/-- One iteration of lines 35-37: `df[new] = df[original]` when the source
column is present. -/
def renameStep (acc : DataFrame) (p : String × String) : DataFrame :=
  if p.1 ∈ acc.cols then setCol acc p.2 (getColVals acc p.1) else acc

/-- Lines 35-37: `df[new] = df[original]` for each pair whose source column
is present. -/
def applyRenames (d : DataFrame) : DataFrame :=
  renamePairs.foldl renameStep d

/-- Embeds `load_and_clean_csv` (src/app.py lines 11-39): read with
`skiprows=2` (an input with at most 2 records raises EmptyDataError, caught
and turned into an empty frame), normalize the column names, require a
"Club" column (else an empty frame), drop rows with a null Club or an Index
containing "Average"/"Deviation" (an uncaught KeyError -- `none` -- when
there is no Index column), then copy the renamed metric columns. -/
def load_and_clean_csv (raw : List (List String)) : Option DataFrame :=
  match raw.drop 2 with
  | [] => some ⟨[], []⟩
  | hdr :: body =>
    match colIdx "Club" (hdr.map normCol) with
    | none => some ⟨[], []⟩
    | some ci =>
      match colIdx "Index" (hdr.map normCol) with
      | none => none
      | some ii =>
        some (applyRenames ⟨hdr.map normCol,
          (body.map fun r =>
              (List.range (hdr.map normCol).length).map fun i => naCell (r.getD i "")).filter
            fun r => !(r.getD ci none).isNone && !hasToken (astypeStr (r.getD ii none))⟩)

/-- Line 53: `os.path.basename(f).replace("session_", "").replace(".csv", "")`. -/
def sessionIdOf (fname : String) : String :=
  let base := (fname.data.reverse.takeWhile fun c => c ≠ '/').reverse
  String.mk (stripPat ".csv".data (stripPat "session_".data base))

/-- `pd.concat` keeps a column once, at its first appearance. -/
def insertAbsent (a : List String) (c : String) : List String :=
  if c ∈ a then a else a ++ [c]

def concatCols (dfs : List DataFrame) : List String :=
  dfs.foldl (fun acc d => d.cols.foldl insertAbsent acc) []

def lookupCell (d : DataFrame) (r : List (Option String)) (c : String) : Option String :=
  match colIdx c d.cols with
  | some i => r.getD i none
  | none => none

/-- `pd.concat(dfs, ignore_index=True)`: the columns are the union in order
of first appearance, each row is re-aligned to them with NaN for columns its
frame lacks. -/
def concatDFs (dfs : List DataFrame) : DataFrame :=
  ⟨concatCols dfs,
   (dfs.map fun d => d.rows.map fun r => (concatCols dfs).map fun c => lookupCell d r c).flatten⟩

/-- Embeds the session loading loop (src/app.py lines 48-57): each file is
loaded, its rows are tagged with the Session id derived from its name, and
the frames are concatenated in the order of the directory listing; an empty
listing yields an empty frame. -/
def loadSessions (files : List (String × List (List String))) : Option DataFrame :=
  match files.mapM (fun fr => (load_and_clean_csv fr.2).map fun d =>
      setCol d "Session" (List.replicate d.rows.length (some (sessionIdOf fr.1)))) with
  | none => none
  | some dfs => some (if files.isEmpty then ⟨[], []⟩ else concatDFs dfs)

def csvNoMeta : List (List String) :=
  [["Index", "Club", "Carry(yd)"],
   ["1", "7 Iron", "150"], ["2", "7 Iron", "152"], ["3", "7 Iron", "148"]]

def csvTwoMeta : List (List String) :=
  [["Garmin R10 export"], ["firmware 2.1"]] ++ csvNoMeta

def csvSentinel : List (List String) :=
  [["meta"], ["meta"], ["Index", "Club"], ["1", " "], ["2", "Average"]]

def DFWF (d : DataFrame) : Prop := ∀ r ∈ d.rows, r.length = d.cols.length

/-- The table that `load_and_clean_csv` produces from `csvTwoMeta`. -/
def df4w : DataFrame :=
  ⟨["Index", "Club", "Carry"],
   [[some "1", some "7 Iron", some "150"],
    [some "2", some "7 Iron", some "152"],
    [some "3", some "7 Iron", some "148"]]⟩

def csvB : List (List String) :=
  [["m"], ["m"], ["Index", "Club", "Total(yd)"], ["1", "Driver", "230"]]

/-- The table that `load_and_clean_csv` produces from `csvB`. -/
def dfB : DataFrame :=
  ⟨["Index", "Club", "Total", "Total Distance"],
   [[some "1", some "Driver", some "230", some "230"]]⟩

/-! ### Helper lemmas about `dropWhile`, `takeWhile` and `trimChars` -/

theorem dropWhile_dropWhile (p : Char → Bool) (l : List Char) :
    List.dropWhile p (List.dropWhile p l) = List.dropWhile p l := by
  induction l with
  | nil => rfl
  | cons c cs ih =>
    by_cases h : p c = true
    · rw [List.dropWhile_cons, if_pos h]; exact ih
    · rw [List.dropWhile_cons, if_neg h, List.dropWhile_cons, if_neg h]

theorem dropWhile_take_fix {p : Char → Bool} {l : List Char}
    (h : List.dropWhile p l = l) (n : Nat) :
    List.dropWhile p (l.take n) = l.take n := by
  cases l with
  | nil => simp
  | cons c cs =>
    have hc : p c = false := by
      cases hpc : p c with
      | false => rfl
      | true =>
        rw [List.dropWhile_cons, if_pos hpc] at h
        have hle : (List.dropWhile p cs).length ≤ cs.length :=
          (List.dropWhile_sublist p).length_le
        have hlen := congrArg List.length h
        simp only [List.length_cons] at hlen
        omega
    cases n with
    | zero => simp
    | succ n => simp [List.take_succ_cons, List.dropWhile_cons, hc]

theorem trimChars_idem (s : List Char) : trimChars (trimChars s) = trimChars s := by
  unfold trimChars
  generalize hA : List.dropWhile Char.isWhitespace s = A
  generalize hB : List.dropWhile Char.isWhitespace A.reverse = B
  have hfixA : List.dropWhile Char.isWhitespace A = A := by
    rw [← hA]; exact dropWhile_dropWhile _ _
  have hfixB : List.dropWhile Char.isWhitespace B = B := by
    rw [← hB]; exact dropWhile_dropWhile _ _
  have h1 : A.reverse = A.reverse.takeWhile Char.isWhitespace ++ B := by
    rw [← hB]; exact (List.takeWhile_append_dropWhile _ _).symm
  have hsplit : A = B.reverse ++ (A.reverse.takeWhile Char.isWhitespace).reverse := by
    calc A = A.reverse.reverse := (List.reverse_reverse A).symm
    _ = (A.reverse.takeWhile Char.isWhitespace ++ B).reverse := congrArg List.reverse h1
    _ = B.reverse ++ (A.reverse.takeWhile Char.isWhitespace).reverse := List.reverse_append ..
  have htake : A.take B.reverse.length = B.reverse := by
    rw [hsplit]; exact List.take_left _ _
  have hT : List.dropWhile Char.isWhitespace B.reverse = B.reverse := by
    rw [← htake]; exact dropWhile_take_fix hfixA _
  rw [hT, List.reverse_reverse, hfixB]

theorem dropWhile_eq_self_of_none {p : Char → Bool} {l : List Char}
    (h : ∀ c ∈ l, p c = false) : List.dropWhile p l = l := by
  cases l with
  | nil => rfl
  | cons c cs =>
    rw [List.dropWhile_cons, if_neg]
    simp [h c (List.mem_cons_self c cs)]

theorem trimChars_eq_self {l : List Char} (h : ∀ c ∈ l, c.isWhitespace = false) :
    trimChars l = l := by
  unfold trimChars
  rw [dropWhile_eq_self_of_none h,
      dropWhile_eq_self_of_none (fun c hc => h c (List.mem_reverse.mp hc))]
  exact List.reverse_reverse l

theorem takeWhile_all {p : Char → Bool} {l : List Char} (h : ∀ c ∈ l, p c = true) :
    l.takeWhile p = l := by
  induction l with
  | nil => rfl
  | cons c cs ih =>
    rw [List.takeWhile_cons, if_pos (h c (List.mem_cons_self c cs)),
        ih (fun x hx => h x (List.mem_cons_of_mem c hx))]

theorem dropWhile_all {p : Char → Bool} {l : List Char} (h : ∀ c ∈ l, p c = true) :
    l.dropWhile p = [] := by
  induction l with
  | nil => rfl
  | cons c cs ih =>
    rw [List.dropWhile_cons, if_pos (h c (List.mem_cons_self c cs))]
    exact ih (fun x hx => h x (List.mem_cons_of_mem c hx))

theorem takeWhile_append_run {p : Char → Bool} {ds : List Char} (h : ∀ c ∈ ds, p c = true)
    {x : Char} (hx : p x = false) (r : List Char) :
    (ds ++ x :: r).takeWhile p = ds ∧ (ds ++ x :: r).dropWhile p = x :: r := by
  induction ds with
  | nil =>
    constructor
    · rw [List.nil_append, List.takeWhile_cons, if_neg (by simp [hx])]
    · rw [List.nil_append, List.dropWhile_cons, if_neg (by simp [hx])]
  | cons c cs ih =>
    obtain ⟨ih1, ih2⟩ := ih (fun y hy => h y (List.mem_cons_of_mem c hy))
    constructor
    · rw [List.cons_append, List.takeWhile_cons, if_pos (h c (List.mem_cons_self c cs)), ih1]
    · rw [List.cons_append, List.dropWhile_cons, if_pos (h c (List.mem_cons_self c cs)), ih2]

theorem map_eq_self {f : Char → Char} {l : List Char} (h : ∀ c ∈ l, f c = c) :
    l.map f = l := by
  induction l with
  | nil => rfl
  | cons c cs ih =>
    rw [List.map_cons, h c (List.mem_cons_self c cs),
        ih (fun x hx => h x (List.mem_cons_of_mem c hx))]

/-! ### Character classification helpers -/

theorem digit_bounds {c : Char} (h : c.isDigit = true) : 48 ≤ c.toNat ∧ c.toNat ≤ 57 := by
  simp only [Char.isDigit, Bool.and_eq_true, decide_eq_true_eq] at h
  exact h

theorem digit_toLower {c : Char} (h : c.isDigit = true) : c.toLower = c := by
  have hb := digit_bounds h
  show (if c.toNat ≥ 65 ∧ c.toNat ≤ 90 then Char.ofNat (c.toNat + 32) else c) = c
  rw [if_neg (by omega : ¬(c.toNat ≥ 65 ∧ c.toNat ≤ 90))]

theorem digit_not_ws {c : Char} (h : c.isDigit = true) : c.isWhitespace = false := by
  cases hw : c.isWhitespace with
  | false => rfl
  | true =>
    exfalso
    simp only [Char.isWhitespace, Bool.or_eq_true, decide_eq_true_eq] at hw
    rcases hw with ((h1 | h1) | h1) | h1 <;> subst h1 <;> exact absurd h (by decide)

theorem digit_ne {c d : Char} (h : c.isDigit = true) (hd : d.isDigit = false) : c ≠ d := by
  intro he
  subst he
  rw [h] at hd
  exact absurd hd (by decide)

/-! ### Characterization of `matchLR` and `pyFloat` on digit strings -/

theorem matchLR_sign (c : Char) (hc : c = 'L' ∨ c = 'R') (ds : List Char)
    (hds : ds ≠ []) (hd : ∀ x ∈ ds, x.isDigit = true) :
    matchLR (c :: ds) =
      some (if c = 'L' then -(digitsToNat ds : Rat) else (digitsToNat ds : Rat)) := by
  simp only [matchLR]
  rw [if_pos hc, takeWhile_all hd, dropWhile_all hd, if_neg hds]

theorem matchLR_sign_frac (c : Char) (hc : c = 'L' ∨ c = 'R') (ds : List Char)
    (hds : ds ≠ []) (hd : ∀ x ∈ ds, x.isDigit = true) (fs : List Char)
    (hfs : fs ≠ []) (hf : ∀ x ∈ fs, x.isDigit = true) :
    matchLR (c :: (ds ++ '.' :: fs)) =
      some (if c = 'L' then -((digitsToNat ds : Rat) + fracVal fs)
            else (digitsToNat ds : Rat) + fracVal fs) := by
  obtain ⟨ht, hdr⟩ := takeWhile_append_run hd (by decide : ('.' : Char).isDigit = false) fs
  simp only [matchLR]
  rw [if_pos hc, ht, hdr, if_neg hds]
  simp [hfs, List.all_eq_true.mpr hf]

theorem matchLR_digits (ds : List Char) (hds : ds ≠ []) (hd : ∀ x ∈ ds, x.isDigit = true)
    (rest : List Char) : matchLR (ds ++ rest) = none := by
  cases ds with
  | nil => exact absurd rfl hds
  | cons d dt =>
    have hdd : d.isDigit = true := hd d (List.mem_cons_self d dt)
    rw [List.cons_append]
    simp only [matchLR]
    rw [if_neg]
    rintro (h | h)
    · exact absurd h (digit_ne hdd (by decide))
    · exact absurd h (digit_ne hdd (by decide))

theorem pyFloat_digits (ds : List Char) (hds : ds ≠ []) (hd : ∀ x ∈ ds, x.isDigit = true) :
    pyFloat ds = some (.fin (digitsToNat ds : Rat)) := by
  cases ds with
  | nil => exact absurd rfl hds
  | cons d dt =>
    have hdd : d.isDigit = true := hd d (List.mem_cons_self d dt)
    have hlow : (d :: dt).map Char.toLower = d :: dt :=
      map_eq_self (fun x hx => digit_toLower (hd x hx))
    simp only [pyFloat]
    rw [if_neg (digit_ne hdd (by decide) : d ≠ '-'),
        if_neg (digit_ne hdd (by decide) : d ≠ '+')]
    rw [if_neg, if_neg]
    · rw [takeWhile_all hd, dropWhile_all hd, if_neg hds]
      simp [parseExp, applySign, ratPow10]
    · -- the lowered string is not "nan"
      rw [hlow]
      intro h
      have : d = 'n' := by injection h
      exact absurd this (digit_ne hdd (by decide))
    · -- the lowered string is not "inf" / "infinity"
      rw [hlow]
      rintro (h | h)
      · have : d = 'i' := by injection h
        exact absurd this (digit_ne hdd (by decide))
      · have : d = 'i' := by injection h
        exact absurd this (digit_ne hdd (by decide))

theorem pyFloat_digits_frac (ds : List Char) (hds : ds ≠ [])
    (hd : ∀ x ∈ ds, x.isDigit = true) (fs : List Char) (hf : ∀ x ∈ fs, x.isDigit = true) :
    pyFloat (ds ++ '.' :: fs) = some (.fin ((digitsToNat ds : Rat) + fracVal fs)) := by
  cases ds with
  | nil => exact absurd rfl hds
  | cons d dt =>
    have hdd : d.isDigit = true := hd d (List.mem_cons_self d dt)
    have hrun := takeWhile_append_run hd (by decide : ('.' : Char).isDigit = false) fs
    rw [List.cons_append]
    simp only [pyFloat]
    rw [if_neg (digit_ne hdd (by decide) : d ≠ '-'),
        if_neg (digit_ne hdd (by decide) : d ≠ '+')]
    rw [if_neg, if_neg]
    · rw [← List.cons_append, hrun.1, hrun.2]
      simp [takeWhile_all hf, dropWhile_all hf, parseExp, applySign, ratPow10]
    · intro h
      have hh : Char.toLower d = 'n' := by
        rw [List.map_cons] at h
        injection h
      rw [digit_toLower hdd] at hh
      exact absurd hh (digit_ne hdd (by decide))
    · rintro (h | h) <;>
      · have hh : Char.toLower d = 'i' := by
          rw [List.map_cons] at h
          injection h
        rw [digit_toLower hdd] at hh
        exact absurd hh (digit_ne hdd (by decide))

/-! ### Claims C7, C9, C2 -/

/-- C7: column-name normalization trims surrounding whitespace, strips the
unit suffixes "(yd)" and "(mph)", and removes internal spaces, so the
equivalent source spellings of a column name collapse to the same canonical
key ("Carry(yd)", "Carry", "Carry (yd)" all map to "Carry", and similarly
for the other metric columns). -/
theorem claim7_column_normalization :
    normCol "Carry(yd)" = "Carry" ∧ normCol "Carry" = "Carry" ∧
    normCol "Carry (yd)" = "Carry" ∧ normCol "  Carry  " = "Carry" ∧
    normCol "Ball Speed(mph)" = "BallSpeed" ∧ normCol "BallSpeed" = "BallSpeed" ∧
    normCol "Ball Speed (mph)" = "BallSpeed" ∧
    normCol "Total (yd)" = "Total" ∧ normCol "Total(yd)" = "Total" ∧
    normCol " Launch Angle " = "LaunchAngle" ∧ normCol "Spin Rate" = "SpinRate" := by
  decide

/-- C9: the directional parser is idempotent: applying `convert_lr_to_float`
to its own output leaves it unchanged, for every value (string, numeric,
infinite, or missing). -/
theorem claim9_parser_idempotent (v : Value) :
    convert_lr_to_float (convert_lr_to_float v) = convert_lr_to_float v := by
  cases v with
  | num q => rfl
  | inf b => rfl
  | nan => rfl
  | str s =>
    cases h1 : matchLR (trimChars s.data) with
    | some q =>
      have e1 : convert_lr_to_float (.str s) = .num q := by
        simp only [convert_lr_to_float, h1]
      rw [e1]
      rfl
    | none =>
      cases h2 : pyFloat (trimChars s.data) with
      | some w =>
        have e1 : convert_lr_to_float (.str s) = w.toValue := by
          simp only [convert_lr_to_float, h1, h2]
        rw [e1]
        cases w <;> rfl
      | none =>
        have e1 : convert_lr_to_float (.str s) = .str (String.mk (trimChars s.data)) := by
          simp only [convert_lr_to_float, h1, h2]
        have ht : trimChars (trimChars s.data) = trimChars s.data := trimChars_idem s.data
        have h1' : matchLR (trimChars (String.mk (trimChars s.data)).data) = none := by
          show matchLR (trimChars (trimChars s.data)) = none
          rw [ht]; exact h1
        have h2' : pyFloat (trimChars (String.mk (trimChars s.data)).data) = none := by
          show pyFloat (trimChars (trimChars s.data)) = none
          rw [ht]; exact h2
        have e2 : convert_lr_to_float (.str (String.mk (trimChars s.data)))
            = .str (String.mk (trimChars (trimChars s.data))) := by
          simp only [convert_lr_to_float, h1', h2']
        rw [e1, e2, ht]

/-- C2 counterexample: the claim says a non-conforming string is returned
unchanged, but `convert_lr_to_float` returns it stripped of surrounding
whitespace: on input " abc " the result is "abc", a different string. -/
theorem claim2_counterexample :
    convert_lr_to_float (.str " abc ") = .str "abc" ∧
    convert_lr_to_float (.str " abc ") ≠ .str " abc " := by
  constructor
  · rfl
  · intro h
    exact absurd h (by decide)

/-- C2 (amended): the directional parser maps `L`-prefixed magnitudes to the
negated magnitude and `R`-prefixed ones to the positive magnitude (with or
without a decimal fraction), maps a plain numeric string to its numeric
value, returns any non-conforming string stripped of surrounding whitespace
but otherwise unchanged (never raising), and maps the empty string to an
empty value, not zero; in particular "L4.5" gives -4.5, "R12" gives 12, and
"7.3" gives 7.3. -/
theorem claim2_amended (ds fs : List Char) (s : String)
    (hds : ds ≠ []) (hd : ∀ c ∈ ds, c.isDigit = true) (hf : ∀ c ∈ fs, c.isDigit = true)
    (hfs : fs ≠ [])
    (hm : matchLR (trimChars s.data) = none) (hp : pyFloat (trimChars s.data) = none) :
    convert_lr_to_float (.str (String.mk ('L' :: ds))) = .num (-(digitsToNat ds : Rat)) ∧
    convert_lr_to_float (.str (String.mk ('R' :: ds))) = .num (digitsToNat ds : Rat) ∧
    convert_lr_to_float (.str (String.mk ('L' :: (ds ++ '.' :: fs)))) =
      .num (-((digitsToNat ds : Rat) + fracVal fs)) ∧
    convert_lr_to_float (.str (String.mk ('R' :: (ds ++ '.' :: fs)))) =
      .num ((digitsToNat ds : Rat) + fracVal fs) ∧
    convert_lr_to_float (.str (String.mk ds)) = .num (digitsToNat ds : Rat) ∧
    convert_lr_to_float (.str (String.mk (ds ++ '.' :: fs))) =
      .num ((digitsToNat ds : Rat) + fracVal fs) ∧
    convert_lr_to_float (.str "") = .str "" ∧
    convert_lr_to_float (.str "") ≠ .num 0 ∧
    convert_lr_to_float (.str s) = .str (String.mk (trimChars s.data)) ∧
    convert_lr_to_float (.str "L4.5") = .num (-(4.5 : Rat)) ∧
    convert_lr_to_float (.str "R12") = .num 12 ∧
    convert_lr_to_float (.str "7.3") = .num (7.3 : Rat) := by
  have hwd : ∀ c ∈ ds, c.isWhitespace = false := fun c hc => digit_not_ws (hd c hc)
  have hwf : ∀ c ∈ fs, c.isWhitespace = false := fun c hc => digit_not_ws (hf c hc)
  have hwdot : ∀ c ∈ ('.' :: fs), c.isWhitespace = false := by
    intro c hc
    rcases List.mem_cons.mp hc with h | h
    · subst h; decide
    · exact hwf c h
  have hsignL : ∀ c ∈ ('L' :: ds), c.isWhitespace = false := by
    intro c hc
    rcases List.mem_cons.mp hc with h | h
    · subst h; decide
    · exact hwd c h
  have hsignR : ∀ c ∈ ('R' :: ds), c.isWhitespace = false := by
    intro c hc
    rcases List.mem_cons.mp hc with h | h
    · subst h; decide
    · exact hwd c h
  have hLfrac : ∀ c ∈ ('L' :: (ds ++ '.' :: fs)), c.isWhitespace = false := by
    intro c hc
    rcases List.mem_cons.mp hc with h | h
    · subst h; decide
    · rcases List.mem_append.mp h with h2 | h2
      · exact hwd c h2
      · exact hwdot c h2
  have hRfrac : ∀ c ∈ ('R' :: (ds ++ '.' :: fs)), c.isWhitespace = false := by
    intro c hc
    rcases List.mem_cons.mp hc with h | h
    · subst h; decide
    · rcases List.mem_append.mp h with h2 | h2
      · exact hwd c h2
      · exact hwdot c h2
  have hdfrac : ∀ c ∈ (ds ++ '.' :: fs), c.isWhitespace = false := by
    intro c hc
    rcases List.mem_append.mp hc with h2 | h2
    · exact hwd c h2
    · exact hwdot c h2
  refine ⟨?_, ?_, ?_, ?_, ?_, ?_, rfl, by decide, ?_, ?_, ?_, ?_⟩
  · simp only [convert_lr_to_float, trimChars_eq_self hsignL,
      matchLR_sign 'L' (Or.inl rfl) ds hds hd]
    simp
  · simp only [convert_lr_to_float, trimChars_eq_self hsignR,
      matchLR_sign 'R' (Or.inr rfl) ds hds hd]
    simp
  · simp only [convert_lr_to_float, trimChars_eq_self hLfrac,
      matchLR_sign_frac 'L' (Or.inl rfl) ds hds hd fs hfs hf]
    simp
  · simp only [convert_lr_to_float, trimChars_eq_self hRfrac,
      matchLR_sign_frac 'R' (Or.inr rfl) ds hds hd fs hfs hf]
    simp
  · have hnone : matchLR (ds ++ []) = none := matchLR_digits ds hds hd []
    rw [List.append_nil] at hnone
    simp only [convert_lr_to_float, trimChars_eq_self hwd, hnone, pyFloat_digits ds hds hd,
      PyNum.toValue]
  · simp only [convert_lr_to_float, trimChars_eq_self hdfrac, matchLR_digits ds hds hd ('.' :: fs),
      pyFloat_digits_frac ds hds hd fs hf, PyNum.toValue]
  · simp only [convert_lr_to_float, hm, hp]
  · -- "L4.5"
    have htr : trimChars "L4.5".data = 'L' :: (['4'] ++ '.' :: ['5']) := rfl
    simp only [convert_lr_to_float, htr,
      matchLR_sign_frac 'L' (Or.inl rfl) ['4'] (by decide) (by decide) ['5'] (by decide) (by decide)]
    have h4 : digitsToNat ['4'] = 4 := rfl
    have h5 : digitsToNat ['5'] = 5 := rfl
    simp only [if_pos rfl, fracVal, h4, h5, Value.num.injEq]
    norm_num
  · -- "R12"
    have htr : trimChars "R12".data = 'R' :: ['1', '2'] := rfl
    simp only [convert_lr_to_float, htr,
      matchLR_sign 'R' (Or.inr rfl) ['1', '2'] (by decide) (by decide)]
    rw [if_neg (by decide : ¬('R' = 'L'))]
    have h12 : digitsToNat ['1', '2'] = 12 := rfl
    simp only [h12, Value.num.injEq]
    norm_num
  · -- "7.3"
    have htr : trimChars "7.3".data = ['7'] ++ '.' :: ['3'] := rfl
    have hnone : matchLR (['7'] ++ '.' :: ['3']) = none :=
      matchLR_digits ['7'] (by decide) (by decide) ('.' :: ['3'])
    simp only [convert_lr_to_float, htr, hnone,
      pyFloat_digits_frac ['7'] (by decide) (by decide) ['3'] (by decide), PyNum.toValue]
    have h7 : digitsToNat ['7'] = 7 := rfl
    have h3 : digitsToNat ['3'] = 3 := rfl
    simp only [fracVal, h7, h3, Value.num.injEq]
    norm_num

theorem iqrPass_eq_spec (get : Shot → Option Rat) (rows : List Shot) :
    iqrPass true get rows = specTukeyStep get rows := by
  simp only [iqrPass, specTukeyStep]
  rw [if_true]
  cases h1 : quantileLinear (List.filterMap get rows) (1/4) with
  | none =>
    cases h3 : quantileLinear (List.filterMap get rows) (3/4) with
    | none => exact List.filter_false rows
    | some q3 => exact List.filter_false rows
  | some q1 =>
    cases h3 : quantileLinear (List.filterMap get rows) (3/4) with
    | none => exact List.filter_false rows
    | some q3 =>
      apply List.filter_congr
      intro s _
      cases hget : get s with
      | none => rfl
      | some v =>
        rw [decide_eq_decide]
        constructor
        · rintro ⟨ha, hb⟩
          exact ⟨v, rfl, Set.mem_Icc.mpr ⟨ha, hb⟩⟩
        · rintro ⟨v2, hv2, hm⟩
          injection hv2 with h2
          subst h2
          exact Set.mem_Icc.mp hm

theorem iqrPass_if (b : Bool) (get : Shot → Option Rat) (rows : List Shot) :
    iqrPass b get rows = if b then specTukeyStep get rows else rows := by
  cases b with
  | false => rfl
  | true => rw [iqrPass_eq_spec]; rfl

theorem boundPass_ballSpeed (b : Bool) (rows : List Shot) :
    boundPass b keepBallSpeed rows =
      if b then rows.filter fun (s : Shot) => decide (∃ v, s.ballSpeed = some v ∧ 40 ≤ v) else rows := by
  cases b with
  | false => rfl
  | true =>
    show rows.filter keepBallSpeed = rows.filter _
    apply List.filter_congr
    intro s _
    cases hv : s.ballSpeed with
    | none => unfold keepBallSpeed; rw [hv]; rfl
    | some v =>
      unfold keepBallSpeed
      rw [hv, decide_eq_decide]
      constructor
      · intro h; exact ⟨v, rfl, h⟩
      · rintro ⟨v2, hv2, h⟩; injection hv2 with h2; subst h2; exact h

theorem boundPass_carryMin (b : Bool) (rows : List Shot) :
    boundPass b keepCarryMin rows =
      if b then rows.filter fun (s : Shot) => decide (∃ v, s.carry = some v ∧ 30 ≤ v) else rows := by
  cases b with
  | false => rfl
  | true =>
    show rows.filter keepCarryMin = rows.filter _
    apply List.filter_congr
    intro s _
    cases hv : s.carry with
    | none => unfold keepCarryMin; rw [hv]; rfl
    | some v =>
      unfold keepCarryMin
      rw [hv, decide_eq_decide]
      constructor
      · intro h; exact ⟨v, rfl, h⟩
      · rintro ⟨v2, hv2, h⟩; injection hv2 with h2; subst h2; exact h

theorem boundPass_offline (b : Bool) (rows : List Shot) :
    boundPass b keepOffline rows =
      if b then rows.filter fun (s : Shot) => decide (∃ v, s.offline = Value.num v ∧ |v| ≤ 50) else rows := by
  cases b with
  | false => rfl
  | true =>
    show rows.filter keepOffline = rows.filter _
    apply List.filter_congr
    intro s _
    cases hv : s.offline with
    | num v =>
      unfold keepOffline
      rw [hv, decide_eq_decide]
      constructor
      · intro h; exact ⟨v, rfl, h⟩
      · rintro ⟨v2, hv2, h⟩; injection hv2 with h2; subst h2; exact h
    | str s2 => unfold keepOffline; rw [hv]; rfl
    | inf b2 => unfold keepOffline; rw [hv]; rfl
    | nan => unfold keepOffline; rw [hv]; rfl

/-- C3: with outlier filtering enabled, the code's filter block coincides
with the spec-worded filter: for carry then total distance it computes Q1
and Q3 over the currently filtered rows (cumulative) and keeps exactly the
rows whose value lies in the inclusive Tukey interval, then independently
removes every row without ball speed >= 40, every row without carry >= 30,
and every row whose offline value is not a finite number of magnitude at
most 50. -/
theorem claim3_filter_matches_spec (t : ShotTable) :
    filterOutliers true t = specRemoveOutliers t := by
  show (⟨t.hasCarry, t.hasTotal, t.hasBallSpeed, t.hasOffline, removeOutliersRows t⟩ : ShotTable)
    = specRemoveOutliers t
  simp only [removeOutliersRows, specRemoveOutliers]
  rw [iqrPass_if, iqrPass_if, boundPass_ballSpeed, boundPass_carryMin, boundPass_offline]

/-! ### Claim C6: the outlier filter is not idempotent -/

theorem iqrPass_sublist (b : Bool) (get : Shot → Option Rat) (rows : List Shot) :
    (iqrPass b get rows).Sublist rows := by
  cases b with
  | false => exact List.Sublist.refl rows
  | true =>
    simp only [iqrPass]
    rw [if_true]
    cases quantileLinear (List.filterMap get rows) (1/4) <;>
      cases quantileLinear (List.filterMap get rows) (3/4) <;>
      exact List.filter_sublist rows

theorem boundPass_sublist (b : Bool) (keep : Shot → Bool) (rows : List Shot) :
    (boundPass b keep rows).Sublist rows := by
  cases b with
  | false => exact List.Sublist.refl rows
  | true => exact List.filter_sublist rows

/-- C6 (amended): the enabled outlier filter only removes rows (its row list
is a sublist of the input's, and the column-presence flags are unchanged),
and the disabled filter is the identity; but the enabled filter is NOT
idempotent, because quartiles are recomputed over the already filtered rows
(see the counterexample). -/
theorem claim6_amended (t : ShotTable) :
    (filterOutliers true t).rows.Sublist t.rows ∧
    (filterOutliers true t).hasCarry = t.hasCarry ∧
    (filterOutliers true t).hasTotal = t.hasTotal ∧
    (filterOutliers true t).hasBallSpeed = t.hasBallSpeed ∧
    (filterOutliers true t).hasOffline = t.hasOffline ∧
    filterOutliers false t = t := by
  refine ⟨?_, rfl, rfl, rfl, rfl, rfl⟩
  show (removeOutliersRows t).Sublist t.rows
  exact (boundPass_sublist _ _ _).trans ((boundPass_sublist _ _ _).trans
    ((boundPass_sublist _ _ _).trans ((iqrPass_sublist _ _ _).trans
      (iqrPass_sublist _ _ _))))

set_option maxHeartbeats 1000000 in
theorem sort_vals8 : vals8.insertionSort (· ≤ ·) = vals8 := by
  norm_num [List.insertionSort, List.orderedInsert, vals8]

set_option maxHeartbeats 1000000 in
theorem sort_vals7 : vals7.insertionSort (· ≤ ·) = vals7 := by
  norm_num [List.insertionSort, List.orderedInsert, vals7]

set_option maxHeartbeats 1000000 in
theorem q1_vals8 : quantileLinear vals8 (1/4) = some 30 := by
  have hlen : vals8.length = 8 := rfl
  have hfl : (Int.floor ((1/4 : Rat) * ((8 : Nat) - 1))).toNat = 1 := by
    have hf : Int.floor ((1/4 : Rat) * ((8 : Nat) - 1)) = 1 := by norm_num
    rw [hf]
    decide
  simp only [quantileLinear, sort_vals8, hlen]
  rw [if_neg (by norm_num : ¬(8 = 0)), hfl]
  have g1 : vals8.getD 1 0 = 30 := rfl
  have g2 : vals8.getD (1 + 1) (30 : Rat) = 30 := rfl
  rw [g1, g2]
  norm_num

set_option maxHeartbeats 1000000 in
theorem q3_vals8 : quantileLinear vals8 (3/4) = some (69/2) := by
  have hlen : vals8.length = 8 := rfl
  have hfl : (Int.floor ((3/4 : Rat) * ((8 : Nat) - 1))).toNat = 5 := by
    have hf : Int.floor ((3/4 : Rat) * ((8 : Nat) - 1)) = 5 := by norm_num
    rw [hf]
    decide
  simp only [quantileLinear, sort_vals8, hlen]
  rw [if_neg (by norm_num : ¬(8 = 0)), hfl]
  have g1 : vals8.getD 5 0 = 33 := rfl
  have g2 : vals8.getD (5 + 1) (33 : Rat) = 39 := rfl
  rw [g1, g2]
  norm_num

set_option maxHeartbeats 1000000 in
theorem q1_vals7 : quantileLinear vals7 (1/4) = some 30 := by
  have hlen : vals7.length = 7 := rfl
  have hfl : (Int.floor ((1/4 : Rat) * ((7 : Nat) - 1))).toNat = 1 := by
    have hf : Int.floor ((1/4 : Rat) * ((7 : Nat) - 1)) = 1 := by norm_num
    rw [hf]
    decide
  simp only [quantileLinear, sort_vals7, hlen]
  rw [if_neg (by norm_num : ¬(7 = 0)), hfl]
  have g1 : vals7.getD 1 0 = 30 := rfl
  have g2 : vals7.getD (1 + 1) (30 : Rat) = 30 := rfl
  rw [g1, g2]
  norm_num

set_option maxHeartbeats 1000000 in
theorem q3_vals7 : quantileLinear vals7 (3/4) = some (63/2) := by
  have hlen : vals7.length = 7 := rfl
  have hfl : (Int.floor ((3/4 : Rat) * ((7 : Nat) - 1))).toNat = 4 := by
    have hf : Int.floor ((3/4 : Rat) * ((7 : Nat) - 1)) = 4 := by norm_num
    rw [hf]
    decide
  simp only [quantileLinear, sort_vals7, hlen]
  rw [if_neg (by norm_num : ¬(7 = 0)), hfl]
  have g1 : vals7.getD 4 0 = 30 := rfl
  have g2 : vals7.getD (4 + 1) (30 : Rat) = 33 := rfl
  rw [g1, g2]
  norm_num

set_option maxHeartbeats 1000000 in
theorem filter_tbl6 : filterOutliers true tbl6 = tbl6a := by
  have hvals : List.filterMap (fun s => s.carry) tbl6.rows = vals8 := rfl
  simp only [filterOutliers, removeOutliersRows, iqrPass, boundPass,
    show tbl6.hasCarry = true from rfl, show tbl6.hasTotal = false from rfl,
    show tbl6.hasBallSpeed = false from rfl, show tbl6.hasOffline = false from rfl,
    if_true, Bool.false_eq_true, if_false, hvals, q1_vals8, q3_vals8]
  norm_num [tbl6, tbl6a, List.filter, keepCarryMin]

set_option maxHeartbeats 1000000 in
theorem filter_tbl6a : filterOutliers true tbl6a = tbl6b := by
  have hvals : List.filterMap (fun s => s.carry) tbl6a.rows = vals7 := rfl
  simp only [filterOutliers, removeOutliersRows, iqrPass, boundPass,
    show tbl6a.hasCarry = true from rfl, show tbl6a.hasTotal = false from rfl,
    show tbl6a.hasBallSpeed = false from rfl, show tbl6a.hasOffline = false from rfl,
    if_true, Bool.false_eq_true, if_false, hvals, q1_vals7, q3_vals7]
  norm_num [tbl6a, tbl6b, List.filter, keepCarryMin]

/-- C6 counterexample: applying the enabled outlier filter twice removes more
rows than applying it once.  On a carry-only table with carries
[30,30,30,30,30,33,39,57], the first pass removes 57 (fence [23.25, 41.25]);
recomputing the quartiles on the remaining seven rows tightens the fence to
[27.75, 33.75], so a second pass also removes 39. -/
theorem claim6_counterexample :
    filterOutliers true (filterOutliers true tbl6) ≠ filterOutliers true tbl6 := by
  rw [filter_tbl6, filter_tbl6a]
  intro h
  have hlen := congrArg (fun tb : ShotTable => tb.rows.length) h
  simp only [tbl6a, tbl6b, List.length_cons, List.length_nil] at hlen
  exact absurd hlen (by decide)

/-! ### Claim C10: the enabled filter leaves no missing values in the
numeric distance/speed columns that are present -/

theorem mem_boundPass {b : Bool} {keep : Shot → Bool} {rows : List Shot} {s : Shot}
    (hs : s ∈ boundPass b keep rows) : s ∈ rows ∧ (b = true → keep s = true) := by
  cases b with
  | false => exact ⟨hs, fun h => absurd h (by decide)⟩
  | true =>
    obtain ⟨h1, h2⟩ := List.mem_filter.mp hs
    exact ⟨h1, fun _ => h2⟩

theorem mem_iqrPass {b : Bool} {get : Shot → Option Rat} {rows : List Shot} {s : Shot}
    (hs : s ∈ iqrPass b get rows) : s ∈ rows ∧ (b = true → get s ≠ none) := by
  cases b with
  | false => exact ⟨hs, fun h => absurd h (by decide)⟩
  | true =>
    simp only [iqrPass, if_true] at hs
    revert hs
    cases h1 : quantileLinear (List.filterMap get rows) (1/4) with
    | none =>
      cases h3 : quantileLinear (List.filterMap get rows) (3/4) with
      | none => intro hs; rw [List.filter_false] at hs; exact absurd hs (List.not_mem_nil s)
      | some q3 => intro hs; rw [List.filter_false] at hs; exact absurd hs (List.not_mem_nil s)
    | some q1 =>
      cases h3 : quantileLinear (List.filterMap get rows) (3/4) with
      | none => intro hs; rw [List.filter_false] at hs; exact absurd hs (List.not_mem_nil s)
      | some q3 =>
        intro hs
        obtain ⟨hmem, hpred⟩ := List.mem_filter.mp hs
        refine ⟨hmem, fun _ hnone => ?_⟩
        rw [hnone] at hpred
        simp at hpred

/-- C10: every row surviving the enabled outlier filter has a non-missing
value in each of the carry, total-distance and ball-speed columns that are
present: NaN fails the fence comparisons of the IQR pass and the
ball-speed >= 40 comparison, so such rows are removed even when they are not
statistical outliers. -/
theorem claim10_no_missing_values (t : ShotTable) (s : Shot)
    (hs : s ∈ (filterOutliers true t).rows) :
    (t.hasCarry = true → s.carry ≠ none) ∧
    (t.hasTotal = true → s.total ≠ none) ∧
    (t.hasBallSpeed = true → s.ballSpeed ≠ none) := by
  have hrw : (filterOutliers true t).rows = removeOutliersRows t := rfl
  rw [hrw] at hs
  simp only [removeOutliersRows] at hs
  obtain ⟨hs, _⟩ := mem_boundPass hs
  obtain ⟨hs, _⟩ := mem_boundPass hs
  obtain ⟨hs, hbs⟩ := mem_boundPass hs
  obtain ⟨hs, htot⟩ := mem_iqrPass hs
  obtain ⟨_, hcarr⟩ := mem_iqrPass hs
  refine ⟨fun h => hcarr h, fun h => htot h, fun hb hnone => ?_⟩
  have hk := hbs hb
  unfold keepBallSpeed at hk
  rw [hnone] at hk
  exact absurd hk (by decide)

theorem quantileLinear_single (x q : Rat) : quantileLinear [x] q = some x := by
  have hs : ([x] : List Rat).insertionSort (· ≤ ·) = [x] := rfl
  have hlen : ([x] : List Rat).length = 1 := rfl
  simp only [quantileLinear, hs, hlen]
  rw [if_neg (by norm_num : ¬(1 = 0))]
  have hp : q * ((1 : Nat) - 1 : Rat) = 0 := by norm_num
  rw [hp]
  have hfl : (Int.floor (0 : Rat)).toNat = 0 := by
    rw [Int.floor_zero]
    decide
  rw [hfl]
  have g1 : ([x] : List Rat).getD 0 0 = x := rfl
  have g2 : ([x] : List Rat).getD (0 + 1) x = x := rfl
  rw [g1, g2]
  norm_num

set_option maxHeartbeats 1000000 in
theorem filter_tbl10 : filterOutliers true tbl10 = tbl10 := by
  have hc : List.filterMap (fun s => s.carry) tbl10.rows = [100] := rfl
  simp only [filterOutliers, removeOutliersRows, iqrPass, boundPass,
    show tbl10.hasCarry = true from rfl, show tbl10.hasTotal = true from rfl,
    show tbl10.hasBallSpeed = true from rfl, show tbl10.hasOffline = true from rfl,
    if_true, hc, quantileLinear_single]
  norm_num [tbl10, List.filter, List.filterMap_cons, List.filterMap_nil,
    quantileLinear_single, keepCarryMin, keepBallSpeed, keepOffline]

/-- C10 witness at a concrete surviving row. -/
theorem claim10_witness :
    (tbl10.hasCarry = true → (⟨"7 Iron", some 100, some 110, some 90, .num 5⟩ : Shot).carry ≠ none) ∧
    (tbl10.hasTotal = true → (⟨"7 Iron", some 100, some 110, some 90, .num 5⟩ : Shot).total ≠ none) ∧
    (tbl10.hasBallSpeed = true →
      (⟨"7 Iron", some 100, some 110, some 90, .num 5⟩ : Shot).ballSpeed ≠ none) :=
  claim10_no_missing_values tbl10 ⟨"7 Iron", some 100, some 110, some 90, .num 5⟩
    (by rw [filter_tbl10]; exact List.mem_cons_self _ _)

/-- C2 witness: the amended parser contract at ds = ['4'], fs = ['5'] and
the non-conforming input " abc ". -/
theorem claim2_witness :
    (['4'] : List Char) ≠ [] ∧ (∀ c ∈ (['4'] : List Char), c.isDigit = true) ∧
    (∀ c ∈ (['5'] : List Char), c.isDigit = true) ∧ (['5'] : List Char) ≠ [] ∧
    matchLR (trimChars " abc ".data) = none ∧ pyFloat (trimChars " abc ".data) = none ∧
    (convert_lr_to_float (.str (String.mk ('L' :: ['4']))) =
      .num (-(digitsToNat ['4'] : Rat)) ∧
    convert_lr_to_float (.str (String.mk ('R' :: ['4']))) = .num (digitsToNat ['4'] : Rat) ∧
    convert_lr_to_float (.str (String.mk ('L' :: (['4'] ++ '.' :: ['5'])))) =
      .num (-((digitsToNat ['4'] : Rat) + fracVal ['5'])) ∧
    convert_lr_to_float (.str (String.mk ('R' :: (['4'] ++ '.' :: ['5'])))) =
      .num ((digitsToNat ['4'] : Rat) + fracVal ['5']) ∧
    convert_lr_to_float (.str (String.mk ['4'])) = .num (digitsToNat ['4'] : Rat) ∧
    convert_lr_to_float (.str (String.mk (['4'] ++ '.' :: ['5']))) =
      .num ((digitsToNat ['4'] : Rat) + fracVal ['5']) ∧
    convert_lr_to_float (.str "") = .str "" ∧
    convert_lr_to_float (.str "") ≠ .num 0 ∧
    convert_lr_to_float (.str " abc ") = .str (String.mk (trimChars " abc ".data)) ∧
    convert_lr_to_float (.str "L4.5") = .num (-(4.5 : Rat)) ∧
    convert_lr_to_float (.str "R12") = .num 12 ∧
    convert_lr_to_float (.str "7.3") = .num (7.3 : Rat)) :=
  ⟨by decide, by decide, by decide, by decide, by decide, by decide,
   claim2_amended ['4'] ['5'] " abc " (by decide) (by decide) (by decide) (by decide)
     (by decide) (by decide)⟩

/-! ### Claim C5: the club recommendation block (src/app.py lines 119-129)

`filtered_df.groupby("Club")["Total Distance"].mean()` groups by club with
`sort=True` (distinct clubs in ascending string order -- uniquely determined,
whatever sort pandas uses, since the keys are distinct) and takes the mean of
the non-NaN values of each group (NaN when a group has none);
`avg_distances.sort_values("Delta")` sorts by Delta ascending with NaN deltas
placed last, with pandas' default UNSTABLE quicksort, so for tied deltas the
row order is unspecified: `recommendSpec` holds of every head that some
Delta-ascending reordering can put under `.iloc[0]`. -/

theorem optLE_refl (a : Option Rat) : optLE a a := by
  cases a with
  | none => trivial
  | some x => exact le_refl x

theorem deltaLE_refl (target : Rat) (e : String × Option Rat) : deltaLE target e e :=
  optLE_refl (deltaKey target e.2)

/-- C5 (amended): whenever the recommendation block runs (positive target,
Total Distance present, non-empty table), every possible output -- the head
of any Delta-ascending reordering that the unstable sort may produce -- is a
club entry whose mean total distance minimizes the absolute difference from
the target.  Which of several TIED minimizers is returned is unspecified
(claim5_counterexample), so no first-occurrence tie-break is guaranteed. -/
theorem claim5_amended (t : ShotTable) (target : Rat)
    (htot : t.hasTotal = true) (hpos : 0 < target) (hne : t.rows ≠ [])
    (l' : List (String × Option Rat))
    (hperm : l'.Perm (clubEntries t)) (hsort : List.Sorted (deltaLE target) l') :
    ∃ e, l'.head? = some e ∧ e ∈ clubEntries t ∧ ∀ f ∈ clubEntries t, deltaLE target e f := by
  have hents : clubEntries t ≠ [] := by
    intro hcon
    apply hne
    have h1 : sortedClubs t = [] := List.map_eq_nil_iff.mp hcon
    unfold sortedClubs at h1
    have h2 := List.perm_insertionSort (α := String) (· ≤ ·)
      ((t.rows.map fun s => s.club).dedup)
    rw [h1] at h2
    have h3 : (t.rows.map fun s => s.club).dedup = [] := h2.symm.eq_nil
    have h4 : t.rows.map (fun s => s.club) = [] := (List.dedup_eq_nil _).mp h3
    exact List.map_eq_nil_iff.mp h4
  obtain ⟨e, es, hes⟩ : ∃ e es, l' = e :: es := by
    cases hcase : l' with
    | nil =>
      rw [hcase] at hperm
      exact absurd hperm.symm.eq_nil hents
    | cons e es => exact ⟨e, es, rfl⟩
  subst hes
  refine ⟨e, rfl, hperm.mem_iff.mp (List.mem_cons_self e es), ?_⟩
  intro f hf
  rcases List.mem_cons.mp (hperm.mem_iff.mpr hf) with h | h
  · rw [h]
    exact deltaLE_refl target e
  · exact (List.sorted_cons.mp hsort).1 f h

theorem clubs_tbl5 : sortedClubs tbl5 = ["7 Iron", "Driver"] := by
  have hd : (tbl5.rows.map fun s => s.club).dedup = ["7 Iron", "Driver"] := by
    simp [tbl5]
  unfold sortedClubs
  rw [hd]
  have hle : ("7 Iron" : String) ≤ "Driver" := by
    rw [String.le_iff_toList_le]
    decide
  simp only [List.insertionSort, List.orderedInsert, if_pos hle]

set_option maxHeartbeats 1000000 in
theorem mean_tbl5_iron : clubMeanTotal tbl5 "7 Iron" = some 145 := by
  have hfm : tbl5.rows.filterMap (fun s => if s.club = "7 Iron" then s.total else none)
      = [(145 : Rat)] := rfl
  simp only [clubMeanTotal, hfm]
  norm_num

set_option maxHeartbeats 1000000 in
theorem mean_tbl5_driver : clubMeanTotal tbl5 "Driver" = some 160 := by
  have hfm : tbl5.rows.filterMap (fun s => if s.club = "Driver" then s.total else none)
      = [(160 : Rat)] := rfl
  simp only [clubMeanTotal, hfm]
  norm_num

theorem entries_tbl5 : clubEntries tbl5 = [("7 Iron", some 145), ("Driver", some 160)] := by
  unfold clubEntries
  rw [clubs_tbl5]
  rw [List.map_cons, List.map_cons, List.map_nil, mean_tbl5_iron, mean_tbl5_driver]

theorem clubs_tbl5tie : sortedClubs tbl5tie = ["5 Iron", "Driver"] := by
  have hd : (tbl5tie.rows.map fun s => s.club).dedup = ["5 Iron", "Driver"] := by
    simp [tbl5tie]
  unfold sortedClubs
  rw [hd]
  have hle : ("5 Iron" : String) ≤ "Driver" := by
    rw [String.le_iff_toList_le]
    decide
  simp only [List.insertionSort, List.orderedInsert, if_pos hle]

set_option maxHeartbeats 1000000 in
theorem mean_tbl5tie_iron : clubMeanTotal tbl5tie "5 Iron" = some 140 := by
  have hfm : tbl5tie.rows.filterMap (fun s => if s.club = "5 Iron" then s.total else none)
      = [(140 : Rat)] := rfl
  simp only [clubMeanTotal, hfm]
  norm_num

set_option maxHeartbeats 1000000 in
theorem mean_tbl5tie_driver : clubMeanTotal tbl5tie "Driver" = some 160 := by
  have hfm : tbl5tie.rows.filterMap (fun s => if s.club = "Driver" then s.total else none)
      = [(160 : Rat)] := rfl
  simp only [clubMeanTotal, hfm]
  norm_num

theorem entries_tbl5tie :
    clubEntries tbl5tie = [("5 Iron", some 140), ("Driver", some 160)] := by
  unfold clubEntries
  rw [clubs_tbl5tie]
  rw [List.map_cons, List.map_cons, List.map_nil, mean_tbl5tie_iron, mean_tbl5tie_driver]

/-- C5 counterexample: `sort_values("Delta")` is pandas' default unstable
quicksort, so on tied deltas any tied club can come first.  With target 150
and per-club means 140 ("5 Iron", first in group-iteration order) and 160
("Driver"), the deltas tie at 10, and the reordering `[Driver, 5 Iron]` is
also Delta-ascending, so the block may return Driver -- not the
first-occurrence club the claim promises. -/
theorem claim5_counterexample :
    clubEntries tbl5tie = [("5 Iron", some 140), ("Driver", some 160)] ∧
    deltaKey 150 (some 140) = deltaKey 150 (some 160) ∧
    recommendSpec tbl5tie 150 ("Driver", some 160) ∧
    ("Driver", (some 160 : Option Rat)) ≠ ("5 Iron", (some 140 : Option Rat)) := by
  refine ⟨entries_tbl5tie, ?_, ?_, ?_⟩
  · show some |(140 : Rat) - 150| = some |(160 : Rat) - 150|
    norm_num
  · refine ⟨[("Driver", some 160), ("5 Iron", some 140)], ?_, ?_, rfl⟩
    · rw [entries_tbl5tie]
      exact List.Perm.swap ("5 Iron", some 140) ("Driver", some 160) []
    · refine List.sorted_cons.mpr ⟨?_, List.sorted_singleton _⟩
      intro b hb
      rw [List.mem_singleton.mp hb]
      show |(160 : Rat) - 150| ≤ |(140 : Rat) - 150|
      norm_num
  · intro h
    have h2 : ("Driver" : String) = "5 Iron" := congrArg Prod.fst h
    exact absurd h2 (by decide)

/-- C5 witness: with target 150 and two clubs averaging 145 and 160 total
distance, the (unique) Delta-ascending order puts the 145 club first, and
the recommended entry minimizes the distance to the target. -/
theorem claim5_witness :
    tbl5.hasTotal = true ∧ (0 : Rat) < 150 ∧ tbl5.rows ≠ [] ∧
    [(("7 Iron" : String), (some 145 : Option Rat)), ("Driver", some 160)].Perm
      (clubEntries tbl5) ∧
    List.Sorted (deltaLE 150)
      [(("7 Iron" : String), (some 145 : Option Rat)), ("Driver", some 160)] ∧
    (∃ e, [(("7 Iron" : String), (some 145 : Option Rat)),
        ("Driver", some 160)].head? = some e ∧
      e ∈ clubEntries tbl5 ∧ ∀ f ∈ clubEntries tbl5, deltaLE 150 e f) := by
  have hperm : [(("7 Iron" : String), (some 145 : Option Rat)), ("Driver", some 160)].Perm
      (clubEntries tbl5) := by
    rw [entries_tbl5]
  have hsort : List.Sorted (deltaLE 150)
      [(("7 Iron" : String), (some 145 : Option Rat)), ("Driver", some 160)] := by
    refine List.sorted_cons.mpr ⟨?_, List.sorted_singleton _⟩
    intro b hb
    rw [List.mem_singleton.mp hb]
    show |(145 : Rat) - 150| ≤ |(160 : Rat) - 150|
    norm_num
  exact ⟨rfl, by norm_num, by simp [tbl5], hperm, hsort,
    claim5_amended tbl5 150 rfl (by norm_num) (by simp [tbl5]) _ hperm hsort⟩

/-- C1 counterexample: the loader has no header-offset retry -- it always
skips exactly two records.  On content whose header is at row 0, the header
and the first data row are consumed as if they were metadata, the "Club"
column is not found in what is then taken as the header, and an empty frame
is returned instead of the table the same content with two metadata rows
produces. -/
theorem claim1_counterexample :
    load_and_clean_csv csvNoMeta = some ⟨[], []⟩ ∧
    load_and_clean_csv csvTwoMeta = some ⟨["Index", "Club", "Carry"],
      [[some "1", some "7 Iron", some "150"], [some "2", some "7 Iron", some "152"],
       [some "3", some "7 Iron", some "148"]]⟩ ∧
    load_and_clean_csv csvNoMeta ≠ load_and_clean_csv csvTwoMeta := by
  refine ⟨by decide, by decide, ?_⟩
  intro h
  exact absurd h (by decide)

/-- C1 (amended): `load_and_clean_csv` always skips exactly the first two
records, whatever they contain, and parses the header at row 2; there is no
retry at another offset, so only inputs with exactly two leading metadata
rows recover the canonical columns. -/
theorem claim1_amended (a b a2 b2 : List String) (rest : List (List String)) :
    load_and_clean_csv (a :: b :: rest) = load_and_clean_csv (a2 :: b2 :: rest) := rfl

/-- C4 counterexample: the loader checks the sentinels only in the Index
column, and only null (not blank) Club cells are dropped: a row whose Club
is the literal "Average" but whose Index is clean is kept, and so is a row
with a whitespace-only Club. -/
theorem claim4_counterexample :
    load_and_clean_csv csvSentinel = some ⟨["Index", "Club"],
      [[some "1", some " "], [some "2", some "Average"]]⟩ ∧
    getColVals ⟨["Index", "Club"], [[some "1", some " "], [some "2", some "Average"]]⟩ "Club"
      = [some " ", some "Average"] := by
  constructor
  · decide
  · decide

/-! ### DataFrame lemmas -/

theorem colIdx_get {c : String} :
    ∀ {cols : List String} {i : Nat}, colIdx c cols = some i → cols[i]? = some c := by
  intro cols
  induction cols with
  | nil => intro i h; cases h
  | cons x xs ih =>
    intro i h
    unfold colIdx at h
    by_cases hx : x = c
    · rw [if_pos hx] at h
      injection h with h2
      subst h2
      simp [hx]
    · rw [if_neg hx] at h
      cases hj : colIdx c xs with
      | none => rw [hj] at h; cases h
      | some j =>
        rw [hj] at h
        injection h with h2
        subst h2
        simpa using ih hj

theorem mem_of_colIdx {c : String} {cols : List String} {i : Nat}
    (h : colIdx c cols = some i) : c ∈ cols := by
  have := colIdx_get h
  exact List.getElem?_mem this

theorem colIdx_of_mem {c : String} {cols : List String} (h : c ∈ cols) :
    ∃ i, colIdx c cols = some i := by
  induction cols with
  | nil => cases h
  | cons x xs ih =>
    by_cases hx : x = c
    · exact ⟨0, by unfold colIdx; rw [if_pos hx]⟩
    · have hxs : c ∈ xs := by
        rcases List.mem_cons.mp h with h2 | h2
        · exact absurd h2.symm hx
        · exact h2
      obtain ⟨j, hj⟩ := ih hxs
      exact ⟨j + 1, by unfold colIdx; rw [if_neg hx, hj]; rfl⟩

theorem colIdx_lt {c : String} {cols : List String} {i : Nat}
    (h : colIdx c cols = some i) : i < cols.length := by
  have := colIdx_get h
  exact List.getElem?_eq_some.mp this |>.1

theorem colIdx_append_some {c : String} {cols : List String} {i : Nat}
    (h : colIdx c cols = some i) (l2 : List String) : colIdx c (cols ++ l2) = some i := by
  induction cols generalizing i with
  | nil => cases h
  | cons x xs ih =>
    unfold colIdx at h
    rw [List.cons_append]
    unfold colIdx
    by_cases hx : x = c
    · rw [if_pos hx] at h
      rw [if_pos hx]
      exact h
    · rw [if_neg hx] at h
      rw [if_neg hx]
      cases hj : colIdx c xs with
      | none => rw [hj] at h; cases h
      | some j =>
        rw [hj] at h
        rw [ih hj]
        exact h

theorem colIdx_append_none {c nm : String} {cols : List String}
    (h : colIdx c cols = none) (hne : c ≠ nm) : colIdx c (cols ++ [nm]) = none := by
  induction cols with
  | nil =>
    unfold colIdx
    rw [List.nil_append]
    show (if nm = c then some 0 else (colIdx c []).map (· + 1)) = none
    rw [if_neg (fun h2 => hne h2.symm)]
    rfl
  | cons x xs ih =>
    unfold colIdx at h
    rw [List.cons_append]
    unfold colIdx
    by_cases hx : x = c
    · rw [if_pos hx] at h; cases h
    · rw [if_neg hx] at h
      rw [if_neg hx]
      cases hj : colIdx c xs with
      | none => rw [ih hj]; rfl
      | some j => rw [hj] at h; cases h

theorem colIdx_append_self {nm : String} {cols : List String}
    (h : colIdx nm cols = none) : colIdx nm (cols ++ [nm]) = some cols.length := by
  induction cols with
  | nil =>
    rw [List.nil_append]
    unfold colIdx
    rw [if_pos rfl]
    rfl
  | cons x xs ih =>
    unfold colIdx at h
    rw [List.cons_append]
    unfold colIdx
    by_cases hx : x = nm
    · rw [if_pos hx] at h; cases h
    · rw [if_neg hx] at h
      rw [if_neg hx]
      cases hj : colIdx nm xs with
      | none => rw [ih hj]; rfl
      | some j => rw [hj] at h; cases h

theorem getD_set_ne {r : List (Option String)} {i j : Nat} {v : Option String}
    (h : i ≠ j) : (r.set i v).getD j none = r.getD j none := by
  rw [List.getD_eq_getElem?_getD, List.getD_eq_getElem?_getD, List.getElem?_set_ne h]

theorem getD_set_self {r : List (Option String)} {i : Nat} {v : Option String}
    (h : i < r.length) : (r.set i v).getD i none = v := by
  rw [List.getD_eq_getElem?_getD, List.getElem?_set_self h]
  rfl

theorem padTo_length (r : List (Option String)) (n : Nat) : (padTo r n).length = n := by
  simp only [padTo, List.length_append, List.length_take, List.length_replicate]
  omega

theorem padTo_eq_self {r : List (Option String)} {n : Nat} (h : r.length = n) :
    padTo r n = r := by
  subst h
  simp [padTo]

theorem getD_map_colIdx {c : String} {cols : List String} {i : Nat}
    (h : colIdx c cols = some i) (f : String → Option String) :
    (cols.map f).getD i none = f c := by
  have hg := colIdx_get h
  rw [List.getD_eq_getElem?_getD, List.getElem?_map, hg]
  rfl

theorem zipmap_eq_map {R R2 : Type} (g : R2 → Option String) (g2 : R → Option String) :
    ∀ (rows : List R) (vals : List (Option String)) (f : R → Option String → R2),
      vals.length = rows.length → (∀ r ∈ rows, ∀ v, g (f r v) = g2 r) →
      ((rows.zip vals).map fun rv => f rv.1 rv.2).map g = rows.map g2 := by
  intro rows
  induction rows with
  | nil => intro vals f _ _; simp
  | cons r rs ih =>
    intro vals f hlen hpt
    cases vals with
    | nil => cases hlen
    | cons v vs =>
      simp only [List.zip_cons_cons, List.map_cons]
      rw [hpt r (List.mem_cons_self r rs) v]
      rw [ih vs f (by simpa using hlen) (fun r2 h2 v2 => hpt r2 (List.mem_cons_of_mem r h2) v2)]

theorem zipmap_eq_vals {R R2 : Type} (g : R2 → Option String) :
    ∀ (rows : List R) (vals : List (Option String)) (f : R → Option String → R2),
      vals.length = rows.length → (∀ r ∈ rows, ∀ v, g (f r v) = v) →
      ((rows.zip vals).map fun rv => f rv.1 rv.2).map g = vals := by
  intro rows
  induction rows with
  | nil =>
    intro vals f hlen _
    cases vals with
    | nil => simp
    | cons v vs => cases hlen
  | cons r rs ih =>
    intro vals f hlen hpt
    cases vals with
    | nil => cases hlen
    | cons v vs =>
      simp only [List.zip_cons_cons, List.map_cons]
      rw [hpt r (List.mem_cons_self r rs) v]
      rw [ih vs f (by simpa using hlen) (fun r2 h2 v2 => hpt r2 (List.mem_cons_of_mem r h2) v2)]

theorem getColVals_length_of_mem {d : DataFrame} {c : String} (h : c ∈ d.cols) :
    (getColVals d c).length = d.rows.length := by
  obtain ⟨i, hi⟩ := colIdx_of_mem h
  unfold getColVals
  rw [hi]
  exact List.length_map _ _

theorem mem_setCol_of_mem {d : DataFrame} {c2 : String} (h : c2 ∈ d.cols)
    (c : String) (vals : List (Option String)) : c2 ∈ (setCol d c vals).cols := by
  unfold setCol
  cases colIdx c d.cols with
  | some i => exact h
  | none => exact List.mem_append_left _ h

theorem mem_setCol_self (d : DataFrame) (c : String) (vals : List (Option String)) :
    c ∈ (setCol d c vals).cols := by
  unfold setCol
  cases hidx : colIdx c d.cols with
  | some i => exact mem_of_colIdx hidx
  | none => exact List.mem_append_right _ (List.mem_singleton.mpr rfl)

theorem setCol_wf {d : DataFrame} (hwf : DFWF d) (c : String) (vals : List (Option String)) :
    DFWF (setCol d c vals) := by
  unfold setCol
  cases hidx : colIdx c d.cols with
  | some i =>
    intro r2 hr2
    obtain ⟨rv, hrv, hre⟩ := List.mem_map.mp hr2
    subst hre
    show (rv.1.set i rv.2).length = d.cols.length
    rw [List.length_set]
    exact hwf rv.1 (List.mem_zip hrv).1
  | none =>
    intro r2 hr2
    obtain ⟨rv, hrv, hre⟩ := List.mem_map.mp hr2
    subst hre
    show (padTo rv.1 d.cols.length ++ [rv.2]).length = (d.cols ++ [c]).length
    rw [List.length_append, padTo_length, List.length_append]
    simp

theorem setCol_rows_length {d : DataFrame} {vals : List (Option String)}
    (hlen : vals.length = d.rows.length) (c : String) :
    (setCol d c vals).rows.length = d.rows.length := by
  unfold setCol
  cases colIdx c d.cols <;> simp [List.length_zip, hlen]

theorem getColVals_setCol_ne {d : DataFrame} (hwf : DFWF d) {c nm : String} (hne : nm ≠ c)
    {vals : List (Option String)} (hlen : vals.length = d.rows.length) :
    getColVals (setCol d nm vals) c = getColVals d c := by
  unfold setCol
  cases hidx : colIdx nm d.cols with
  | some i =>
    show getColVals ⟨d.cols, _⟩ c = getColVals d c
    unfold getColVals
    cases hc : colIdx c d.cols with
    | none => rfl
    | some j =>
      have hij : i ≠ j := by
        intro he
        subst he
        have h1 := colIdx_get hidx
        have h2 := colIdx_get hc
        rw [h1] at h2
        injection h2 with h3
        exact hne h3
      exact zipmap_eq_map (fun r => r.getD j none) (fun r => r.getD j none) d.rows vals
        (fun r v => r.set i v) hlen (fun r _ v => getD_set_ne hij)
  | none =>
    show getColVals ⟨d.cols ++ [nm], _⟩ c = getColVals d c
    unfold getColVals
    cases hc : colIdx c d.cols with
    | none => rw [colIdx_append_none hc (fun h2 => hne h2.symm)]
    | some j =>
      rw [colIdx_append_some hc]
      refine zipmap_eq_map (fun r => r.getD j none) (fun r => r.getD j none) d.rows vals
        (fun r v => padTo r d.cols.length ++ [v]) hlen ?_
      intro r hr v
      show (padTo r d.cols.length ++ [v]).getD j none = r.getD j none
      rw [padTo_eq_self (hwf r hr)]
      exact List.getD_append r [v] none j (by rw [hwf r hr]; exact colIdx_lt hc)

theorem getColVals_setCol_self {d : DataFrame} (hwf : DFWF d) {c : String}
    {vals : List (Option String)} (hlen : vals.length = d.rows.length) :
    getColVals (setCol d c vals) c = vals := by
  unfold setCol
  cases hidx : colIdx c d.cols with
  | some i =>
    show getColVals ⟨d.cols, _⟩ c = vals
    unfold getColVals
    rw [hidx]
    exact zipmap_eq_vals (fun r => r.getD i none) d.rows vals (fun r v => r.set i v) hlen
      (fun r hr v => getD_set_self (by rw [hwf r hr]; exact colIdx_lt hidx))
  | none =>
    show getColVals ⟨d.cols ++ [c], _⟩ c = vals
    unfold getColVals
    rw [colIdx_append_self hidx]
    refine zipmap_eq_vals (fun r => r.getD d.cols.length none) d.rows vals
      (fun r v => padTo r d.cols.length ++ [v]) hlen ?_
    intro r hr v
    show (padTo r d.cols.length ++ [v]).getD d.cols.length none = v
    rw [List.getD_eq_getElem?_getD, List.getElem?_append,
      if_neg (by rw [padTo_length]; omega), padTo_length]
    simp

theorem renameStep_wf {d : DataFrame} (hwf : DFWF d) (p : String × String) :
    DFWF (renameStep d p) := by
  unfold renameStep
  by_cases h : p.1 ∈ d.cols
  · rw [if_pos h]; exact setCol_wf hwf _ _
  · rw [if_neg h]; exact hwf

theorem renameFold_wf : ∀ (L : List (String × String)) {d : DataFrame}, DFWF d →
    DFWF (L.foldl renameStep d)
  | [], _, hwf => hwf
  | p :: L, _, hwf => renameFold_wf L (renameStep_wf hwf p)

theorem renameStep_getColVals {d : DataFrame} (hwf : DFWF d) {c : String}
    (p : String × String) (hne : p.2 ≠ c) :
    getColVals (renameStep d p) c = getColVals d c := by
  unfold renameStep
  by_cases h : p.1 ∈ d.cols
  · rw [if_pos h]
    exact getColVals_setCol_ne hwf hne (getColVals_length_of_mem h)
  · rw [if_neg h]

theorem renameFold_getColVals :
    ∀ (L : List (String × String)) {d : DataFrame}, DFWF d → ∀ {c : String},
      (∀ p ∈ L, p.2 ≠ c) → getColVals (L.foldl renameStep d) c = getColVals d c
  | [], _, _, _, _ => rfl
  | p :: L, d, hwf, c, hnot => by
    show getColVals (L.foldl renameStep (renameStep d p)) c = _
    rw [renameFold_getColVals L (renameStep_wf hwf p)
      (fun q hq => hnot q (List.mem_cons_of_mem p hq))]
    exact renameStep_getColVals hwf p (hnot p (List.mem_cons_self p L))

theorem mem_renameStep {d : DataFrame} {c2 : String} (h : c2 ∈ d.cols) (p : String × String) :
    c2 ∈ (renameStep d p).cols := by
  unfold renameStep
  by_cases hp : p.1 ∈ d.cols
  · rw [if_pos hp]; exact mem_setCol_of_mem h _ _
  · rw [if_neg hp]; exact h

theorem mem_renameFold : ∀ (L : List (String × String)) {d : DataFrame} {c2 : String},
    c2 ∈ d.cols → c2 ∈ (L.foldl renameStep d).cols
  | [], _, _, h => h
  | p :: L, _, _, h => mem_renameFold L (mem_renameStep h p)

theorem load_wf {raw : List (List String)} {df : DataFrame}
    (h : load_and_clean_csv raw = some df) : DFWF df := by
  unfold load_and_clean_csv at h
  split at h
  · injection h with h2
    subst h2
    intro r hr
    cases hr
  · split at h
    · injection h with h2
      subst h2
      intro r hr
      cases hr
    · split at h
      · cases h
      · injection h with h2
        subst h2
        refine renameFold_wf renamePairs ?_
        intro r hr
        have hr2 := List.mem_of_mem_filter hr
        obtain ⟨r0, _, hre⟩ := List.mem_map.mp hr2
        subst hre
        rw [List.length_map, List.length_range]

theorem load_club_mem {raw : List (List String)} {df : DataFrame}
    (h : load_and_clean_csv raw = some df) : "Club" ∈ df.cols ∨ df.rows = [] := by
  unfold load_and_clean_csv at h
  split at h
  · injection h with h2
    subst h2
    exact Or.inr rfl
  · split at h
    · injection h with h2
      subst h2
      exact Or.inr rfl
    · split at h
      · cases h
      · injection h with h2
        subst h2
        exact Or.inl (mem_renameFold renamePairs (mem_of_colIdx (by assumption)))

theorem zip_club_index_prop (d : DataFrame) (ci ii : Nat)
    (hclub : colIdx "Club" d.cols = some ci) (hii : colIdx "Index" d.cols = some ii)
    (hrows : ∀ r ∈ d.rows,
      (r.getD ci none).isNone = false ∧ hasToken (astypeStr (r.getD ii none)) = false)
    (hwf : DFWF d) :
    ∀ p ∈ (getColVals (applyRenames d) "Club").zip (getColVals (applyRenames d) "Index"),
      p.1 ≠ none ∧ hasToken (astypeStr p.2) = false := by
  intro p hp
  unfold applyRenames at hp
  rw [@renameFold_getColVals renamePairs d hwf "Club" (by decide),
      @renameFold_getColVals renamePairs d hwf "Index" (by decide)] at hp
  unfold getColVals at hp
  rw [hclub, hii, List.zip_map'] at hp
  obtain ⟨r, hr, hpe⟩ := List.mem_map.mp hp
  subst hpe
  refine ⟨?_, (hrows r hr).2⟩
  intro he
  have he2 : r.getD ci none = none := he
  have h1 := (hrows r hr).1
  rw [he2] at h1
  cases h1

/-- C4 (amended): every row of a successfully loaded table has a non-null
Club cell and an Index cell that does not contain "Average" or "Deviation" --
line 24 filters on `df["Club"].notnull()` and on the Index column's string
form; it does NOT reject blank (whitespace-only) Club values, nor Club cells
that are themselves the literal sentinels, which claim4_counterexample
exhibits surviving the load. -/
theorem claim4_amended {raw : List (List String)} {df : DataFrame}
    (h : load_and_clean_csv raw = some df) :
    ∀ p ∈ (getColVals df "Club").zip (getColVals df "Index"),
      p.1 ≠ none ∧ hasToken (astypeStr p.2) = false := by
  unfold load_and_clean_csv at h
  split at h
  · injection h with h2
    subst h2
    intro p hp
    cases hp
  · split at h
    · injection h with h2
      subst h2
      intro p hp
      cases hp
    · split at h
      · cases h
      · injection h with h2
        subst h2
        refine zip_club_index_prop _ _ _ (by assumption) (by assumption) ?_ ?_
        · intro r hr
          have h3 := List.of_mem_filter hr
          simp only [Bool.and_eq_true, Bool.not_eq_true'] at h3
          exact h3
        · intro r hr
          have hr2 := List.mem_of_mem_filter hr
          obtain ⟨r0, _, hre⟩ := List.mem_map.mp hr2
          subst hre
          rw [List.length_map, List.length_range]

/-- C4 witness: on the two-metadata-row file every loaded row pairs a
non-null Club with a sentinel-free Index. -/
theorem claim4_witness :
    load_and_clean_csv csvTwoMeta = some df4w ∧
    (some "7 Iron", some "1") ∈ (getColVals df4w "Club").zip (getColVals df4w "Index") ∧
    ((some "7 Iron" : Option String) ≠ none ∧
      hasToken (astypeStr (some "1" : Option String)) = false) :=
  ⟨by decide, by decide,
   @claim4_amended csvTwoMeta df4w (by decide) (some "7 Iron", some "1") (by decide)⟩

theorem mem_foldl_insertAbsent : ∀ (cs acc : List String) (c : String),
    c ∈ acc ∨ c ∈ cs → c ∈ cs.foldl insertAbsent acc
  | [], _, _, h => by
    rcases h with h | h
    · exact h
    · cases h
  | x :: cs, acc, c, h => by
    show c ∈ cs.foldl insertAbsent (insertAbsent acc x)
    refine mem_foldl_insertAbsent cs _ c ?_
    rcases h with h | h
    · left
      unfold insertAbsent
      by_cases hx : x ∈ acc
      · rw [if_pos hx]; exact h
      · rw [if_neg hx]; exact List.mem_append_left _ h
    · rcases List.mem_cons.mp h with h2 | h2
      · subst h2
        left
        unfold insertAbsent
        by_cases hx : c ∈ acc
        · rw [if_pos hx]; exact hx
        · rw [if_neg hx]; exact List.mem_append_right _ (List.mem_singleton.mpr rfl)
      · right
        exact h2

theorem mem_concatCols2 {c : String} {a b : DataFrame} (h : c ∈ a.cols ∨ c ∈ b.cols) :
    c ∈ concatCols [a, b] := by
  show c ∈ b.cols.foldl insertAbsent (a.cols.foldl insertAbsent [])
  rcases h with h | h
  · exact mem_foldl_insertAbsent _ _ _ (Or.inl (mem_foldl_insertAbsent _ _ _ (Or.inr h)))
  · exact mem_foldl_insertAbsent _ _ _ (Or.inr h)

theorem lookupCell_eq_getD {d : DataFrame} {c : String} {j : Nat}
    (h : colIdx c d.cols = some j) (r : List (Option String)) :
    lookupCell d r c = r.getD j none := by
  unfold lookupCell
  rw [h]

theorem map_lookupCell_eq {d : DataFrame} {c : String} (h : c ∈ d.cols) :
    (d.rows.map fun r => lookupCell d r c) = getColVals d c := by
  obtain ⟨j, hj⟩ := colIdx_of_mem h
  unfold getColVals
  rw [hj]
  have he : (fun r => lookupCell d r c) = fun r : List (Option String) => r.getD j none :=
    funext fun r => lookupCell_eq_getD hj r
  rw [he]

theorem getColVals_concat2 (a b : DataFrame) (c : String) (hc : c ∈ concatCols [a, b]) :
    getColVals (concatDFs [a, b]) c =
      (a.rows.map fun r => lookupCell a r c) ++ (b.rows.map fun r => lookupCell b r c) := by
  obtain ⟨i, hi⟩ := colIdx_of_mem hc
  unfold getColVals concatDFs
  dsimp only
  rw [hi]
  simp only [List.map_cons, List.map_nil]
  rw [show ([a.rows.map fun r => (concatCols [a, b]).map fun c2 => lookupCell a r c2,
       b.rows.map fun r => (concatCols [a, b]).map fun c2 => lookupCell b r c2] : List _).flatten
      = (a.rows.map fun r => (concatCols [a, b]).map fun c2 => lookupCell a r c2) ++
        (b.rows.map fun r => (concatCols [a, b]).map fun c2 => lookupCell b r c2) from by simp]
  rw [List.map_append, List.map_map, List.map_map]
  have ha : ((fun r : List (Option String) => r.getD i none) ∘
      fun r => (concatCols [a, b]).map fun c2 => lookupCell a r c2) =
      fun r => lookupCell a r c :=
    funext fun r => getD_map_colIdx hi _
  have hb : ((fun r : List (Option String) => r.getD i none) ∘
      fun r => (concatCols [a, b]).map fun c2 => lookupCell b r c2) =
      fun r => lookupCell b r c :=
    funext fun r => getD_map_colIdx hi _
  rw [ha, hb]

/-- C8 (amended): when two loaded files are combined, each row of the
concatenated frame carries the session identifier derived from its source
file's name, per-file row order is preserved within each session block
(the Session column is the two replicate blocks in file order and the Club
column is the concatenation of the two files' Club columns), and the club
set of the result is the union of the two files' club sets.  The files are
processed in the order of the directory listing as `glob.glob` returns it
-- NOT sorted lexicographically, which claim8_counterexample exhibits. -/
theorem claim8_amended {f1 f2 : String} {r1 r2 : List (List String)} {d1 d2 : DataFrame}
    (h1 : load_and_clean_csv r1 = some d1) (h2 : load_and_clean_csv r2 = some d2)
    (hc1 : "Club" ∈ d1.cols) (hc2 : "Club" ∈ d2.cols) :
    ∃ df, loadSessions [(f1, r1), (f2, r2)] = some df ∧
      getColVals df "Session" =
        List.replicate d1.rows.length (some (sessionIdOf f1)) ++
        List.replicate d2.rows.length (some (sessionIdOf f2)) ∧
      getColVals df "Club" = getColVals d1 "Club" ++ getColVals d2 "Club" ∧
      (getColVals df "Club").toFinset =
        (getColVals d1 "Club").toFinset ∪ (getColVals d2 "Club").toFinset := by
  have hw1 := load_wf h1
  have hw2 := load_wf h2
  have hma : "Session" ∈ (setCol d1 "Session"
      (List.replicate d1.rows.length (some (sessionIdOf f1)))).cols := mem_setCol_self _ _ _
  have hmb : "Session" ∈ (setCol d2 "Session"
      (List.replicate d2.rows.length (some (sessionIdOf f2)))).cols := mem_setCol_self _ _ _
  have hca : "Club" ∈ (setCol d1 "Session"
      (List.replicate d1.rows.length (some (sessionIdOf f1)))).cols := mem_setCol_of_mem hc1 _ _
  have hcb : "Club" ∈ (setCol d2 "Session"
      (List.replicate d2.rows.length (some (sessionIdOf f2)))).cols := mem_setCol_of_mem hc2 _ _
  have hclubeq : getColVals (concatDFs
      [setCol d1 "Session" (List.replicate d1.rows.length (some (sessionIdOf f1))),
       setCol d2 "Session" (List.replicate d2.rows.length (some (sessionIdOf f2)))]) "Club" =
      getColVals d1 "Club" ++ getColVals d2 "Club" := by
    rw [getColVals_concat2 _ _ _ (mem_concatCols2 (Or.inl hca)),
      map_lookupCell_eq hca, map_lookupCell_eq hcb,
      getColVals_setCol_ne hw1 (by decide) (by rw [List.length_replicate]),
      getColVals_setCol_ne hw2 (by decide) (by rw [List.length_replicate])]
  refine ⟨concatDFs
      [setCol d1 "Session" (List.replicate d1.rows.length (some (sessionIdOf f1))),
       setCol d2 "Session" (List.replicate d2.rows.length (some (sessionIdOf f2)))],
    ?_, ?_, hclubeq, by rw [hclubeq, List.toFinset_append]⟩
  · unfold loadSessions
    have hm : ([(f1, r1), (f2, r2)].mapM fun fr => (load_and_clean_csv fr.2).map fun d =>
        setCol d "Session" (List.replicate d.rows.length (some (sessionIdOf fr.1)))) =
        some [setCol d1 "Session" (List.replicate d1.rows.length (some (sessionIdOf f1))),
          setCol d2 "Session" (List.replicate d2.rows.length (some (sessionIdOf f2)))] := by
      rw [List.mapM_cons, List.mapM_cons, List.mapM_nil]
      simp only [h1, h2, Option.map_some']
      rfl
    rw [hm]
    rfl
  · rw [getColVals_concat2 _ _ _ (mem_concatCols2 (Or.inl hma)),
      map_lookupCell_eq hma, map_lookupCell_eq hmb,
      getColVals_setCol_self hw1 (by rw [List.length_replicate]),
      getColVals_setCol_self hw2 (by rw [List.length_replicate])]

/-- C8 counterexample: the session files are globbed with `glob.glob`, which
returns the directory listing unsorted, and the loop processes them in that
order -- there is no lexicographic sort.  Presenting the same two files in
the two possible listing orders yields different merged frames (different
column order and row order), so the claimed stable lexicographic processing
order does not hold. -/
theorem claim8_counterexample :
    loadSessions [("Sessions/session_2024-01-02.csv", csvB),
                  ("Sessions/session_2024-01-01.csv", csvTwoMeta)] ≠
    loadSessions [("Sessions/session_2024-01-01.csv", csvTwoMeta),
                  ("Sessions/session_2024-01-02.csv", csvB)] := by decide

/-- C8 witness: merging the 7-Iron file and the Driver file tags every row
with its file's session id, preserves per-file row order, and unions the
club sets. -/
theorem claim8_witness :
    load_and_clean_csv csvTwoMeta = some df4w ∧ load_and_clean_csv csvB = some dfB ∧
    "Club" ∈ df4w.cols ∧ "Club" ∈ dfB.cols ∧
    (∃ df, loadSessions [("Sessions/session_2024-01-01.csv", csvTwoMeta),
            ("Sessions/session_2024-01-02.csv", csvB)] = some df ∧
      getColVals df "Session" =
        List.replicate df4w.rows.length
          (some (sessionIdOf "Sessions/session_2024-01-01.csv")) ++
        List.replicate dfB.rows.length
          (some (sessionIdOf "Sessions/session_2024-01-02.csv")) ∧
      getColVals df "Club" = getColVals df4w "Club" ++ getColVals dfB "Club" ∧
      (getColVals df "Club").toFinset =
        (getColVals df4w "Club").toFinset ∪ (getColVals dfB "Club").toFinset) :=
  ⟨by decide, by decide, by decide, by decide,
   claim8_amended (by decide) (by decide) (by decide) (by decide)⟩
